import Mathlib

/-!
Verification of the paper-companion RAG core: a shallow embedding of
`processor/tiling_processor.py` (segmentation), `PaperCompanion/processor/rag_processor.py`
(tree restructuring and key-map generation) and `PaperCompanion/rag_retriever.py`
(structured retrieval), together with proofs and refutations of the spec's
testable properties.

Python data loaded via `json.load` is modelled by the `Json` inductive; Python
`dict.get`, truthiness, string splitting/stripping and `int()` parsing are
modelled by executable Lean functions below.  Floating-point quantities coming
from the embedding model (cosine similarities of window embeddings, the
standard deviation of depth scores) are abstracted as oracle parameters, since
they originate in an external model; all arithmetic the source performs on them
is carried out exactly over `ℚ`.
-/

/-- JSON values as produced by `json.load`: the input and output trees of the
processors are plain Python dict/list/str/num structures. -/
inductive Json where
  | null
  | bool (b : Bool)
  | num (n : Int)
  | str (s : String)
  | arr (elems : List Json)
  | obj (fields : List (String × Json))

/-- Field lookup in an object's field list (first match; `json.load` output has
unique keys). Models Python `d[k]` / `k in d` on a dict. -/
def lookupField : List (String × Json) → String → Option Json
  | [], _ => none
  | (k', v) :: fs, k => if k' = k then some v else lookupField fs k

/-- Models Python `node.get(k)` on a dict: `none` when the receiver is not a
dict or the key is absent. -/
def jget : Json → String → Option Json
  | .obj fs, k => lookupField fs k
  | _, _ => none

/-- Models Python `node.get(k, default)`. -/
def jgetD (j : Json) (k : String) (d : Json) : Json :=
  (jget j k).getD d

/-- Python truthiness of a JSON-shaped value (`if node:`): empty containers,
empty strings, zero and `None`/`False` are falsy. -/
def jTruthy : Json → Bool
  | .null => false
  | .bool b => b
  | .num n => n ≠ 0
  | .str s => s ≠ ""
  | .arr xs => !xs.isEmpty
  | .obj fs => !fs.isEmpty

/-- The elements of a JSON array, `[]` for anything else (the source only
iterates values that are lists; iterating a non-list either raises or is
guarded by `isinstance` checks at every use site we model). -/
def jArrD : Json → List Json
  | .arr xs => xs
  | _ => []

/-- Decimal digit character for `d < 10`. -/
def digitChar10 (d : Nat) : Char := Char.ofNat (48 + d)

/-- Fueled digit extraction (`n < fuel` is always sufficient, since the
recursion divides by 10); structural recursion keeps it kernel-computable. -/
def natDigitsGo : Nat → Nat → List Char
  | 0, _ => []
  | fuel + 1, n =>
    if n < 10 then [digitChar10 n]
    else natDigitsGo fuel (n / 10) ++ [digitChar10 (n % 10)]

/-- Decimal digits of a natural number, most significant first.  Models the
rendering of a Python `int` by `str()` / f-string interpolation. -/
def natDigits (n : Nat) : List Char := natDigitsGo (n + 1) n

/-- Decimal rendering of a natural number as a string (Python `str(i)` for the
non-negative indices interpolated into key-map paths). -/
def natRepr (n : Nat) : String := String.mk (natDigits n)

/-- Value of a decimal digit character, `none` for non-digits. -/
def digitVal : Char → Option Nat :=
  fun c => if '0' ≤ c ∧ c ≤ '9' then some (c.toNat - 48) else none

/-- Parse a non-empty all-digit character list as a natural number; models the
successful case of Python `int(s)` on the canonical decimal strings occurring
in structural paths (no sign, no whitespace, no underscores). -/
def parseDigits : List Char → Option Nat
  | [] => none
  | cs => go cs 0
where
  go : List Char → Nat → Option Nat
    | [], acc => some acc
    | c :: rest, acc => (digitVal c).bind (fun d => go rest (10 * acc + d))

/-- Python `int(s)` on a string, for the canonical decimal forms used by the
key map; returns `none` where `int()` would raise `ValueError`. -/
def pyInt (s : String) : Option Nat := parseDigits s.data

/-- Python `s.isdigit()` restricted to ASCII decimal digits (the only digits
appearing in generated structural paths). -/
def pyIsDigit (s : String) : Bool :=
  s.data ≠ [] && s.data.all (fun c => '0' ≤ c && c ≤ '9')

/-- Split a character list on `'/'`, keeping empty parts: the semantics of
Python `s.split('/')`. -/
def splitSlash : List Char → List (List Char)
  | [] => [[]]
  | c :: rest =>
    if c = '/' then [] :: splitSlash rest
    else
      match splitSlash rest with
      | r :: rs => (c :: r) :: rs
      | [] => [[c]]

/-- Drop leading `'/'` characters: one side of Python `s.strip('/')`. -/
def dropLeadSlash : List Char → List Char
  | [] => []
  | c :: rest => if c = '/' then dropLeadSlash rest else c :: rest

/-- Python `s.strip('/')`: drop `'/'` from both ends. -/
def stripSlash (cs : List Char) : List Char :=
  ((dropLeadSlash cs.reverse).reverse |> dropLeadSlash)

/-- `json_path.strip("/").split("/")` as a list of part strings. -/
def pathParts (s : String) : List String :=
  (splitSlash (stripSlash s.data)).map String.mk

theorem splitSlash_ne_nil (cs : List Char) : splitSlash cs ≠ [] := by
  induction cs with
  | nil => simp [splitSlash]
  | cons c rest ih =>
    simp only [splitSlash]
    split
    · simp
    · cases h : splitSlash rest with
      | nil => simp
      | cons r rs => simp

/-- Splitting around an inserted separator concatenates the splits. -/
theorem splitSlash_append_sep (xs ys : List Char) :
    splitSlash (xs ++ '/' :: ys) = splitSlash xs ++ splitSlash ys := by
  induction xs with
  | nil => simp [splitSlash]
  | cons c rest ih =>
    by_cases hc : c = '/'
    · subst hc
      simp [splitSlash, ih]
    · cases h : splitSlash rest with
      | nil => exact absurd h (splitSlash_ne_nil rest)
      | cons r rs =>
        simp [splitSlash, hc, ih, h]

/-- A slash-free character list splits to itself. -/
theorem splitSlash_no_slash (xs : List Char) (h : '/' ∉ xs) :
    splitSlash xs = [xs] := by
  induction xs with
  | nil => rfl
  | cons c rest ih =>
    simp only [List.mem_cons, not_or] at h
    simp only [splitSlash, if_neg (Ne.symm h.1)]
    rw [ih h.2]

theorem dropLeadSlash_no_slash_head (cs : List Char) (h : cs.head? ≠ some '/') :
    dropLeadSlash cs = cs := by
  cases cs with
  | nil => rfl
  | cons c rest =>
    have hc : c ≠ '/' := fun hc => h (by simp [List.head?, hc])
    simp [dropLeadSlash, hc]

theorem digitVal_digitChar10 (d : Nat) (h : d < 10) :
    digitVal (digitChar10 d) = some d := by
  interval_cases d <;> decide

theorem digitChar10_bounds (d : Nat) (h : d < 10) :
    '0' ≤ digitChar10 d ∧ digitChar10 d ≤ '9' := by
  interval_cases d <;> decide

theorem digitChar10_ne_slash (d : Nat) (h : d < 10) : digitChar10 d ≠ '/' := by
  interval_cases d <;> decide

theorem natDigitsGo_ne_nil (fuel n : Nat) (h : n < fuel) : natDigitsGo fuel n ≠ [] := by
  cases fuel with
  | zero => omega
  | succ f =>
    rw [natDigitsGo]
    split <;> simp

theorem natDigits_ne_nil (n : Nat) : natDigits n ≠ [] :=
  natDigitsGo_ne_nil (n + 1) n (by omega)

theorem natDigitsGo_all_digits (fuel : Nat) :
    ∀ n, ∀ c ∈ natDigitsGo fuel n, '0' ≤ c ∧ c ≤ '9' := by
  induction fuel with
  | zero => intro n c hc; simp [natDigitsGo] at hc
  | succ f ih =>
    intro n c hc
    rw [natDigitsGo] at hc
    split at hc
    · next h =>
      simp only [List.mem_singleton] at hc
      subst hc
      exact digitChar10_bounds n (by omega)
    · rcases List.mem_append.mp hc with h1 | h2
      · exact ih (n / 10) c h1
      · simp only [List.mem_singleton] at h2
        subst h2
        exact digitChar10_bounds (n % 10) (Nat.mod_lt _ (by omega))

theorem natDigits_all_digits (n : Nat) :
    ∀ c ∈ natDigits n, '0' ≤ c ∧ c ≤ '9' :=
  natDigitsGo_all_digits (n + 1) n

theorem natDigits_no_slash (n : Nat) : '/' ∉ natDigits n := by
  intro h
  have := natDigits_all_digits n '/' h
  revert this
  decide

theorem parseDigits_go_append (xs ys : List Char) (acc a : Nat)
    (h : parseDigits.go xs acc = some a) :
    parseDigits.go (xs ++ ys) acc = parseDigits.go ys a := by
  induction xs generalizing acc with
  | nil =>
    simp only [parseDigits.go, Option.some.injEq] at h
    simp [h]
  | cons c rest ih =>
    simp only [parseDigits.go] at h ⊢
    obtain ⟨d, hd, hfd⟩ := Option.bind_eq_some.mp h
    rw [hd]
    simp only [Option.some_bind]
    exact ih _ hfd

theorem parseDigits_eq_go (cs : List Char) (h : cs ≠ []) :
    parseDigits cs = parseDigits.go cs 0 := by
  cases cs with
  | nil => exact absurd rfl h
  | cons c rest => rfl

theorem parseDigits_go_natDigitsGo (fuel : Nat) :
    ∀ n acc, n < fuel →
    parseDigits.go (natDigitsGo fuel n) acc
      = some (acc * 10 ^ (natDigitsGo fuel n).length + n) := by
  induction fuel with
  | zero => intro n acc h; omega
  | succ f ih =>
    intro n acc hn
    by_cases h : n < 10
    · rw [natDigitsGo, if_pos h]
      simp [parseDigits.go, digitVal_digitChar10 n h]
      omega
    · rw [natDigitsGo, if_neg h]
      have hdiv : n / 10 < n := Nat.div_lt_self (by omega) (by omega)
      have hrec := ih (n / 10) acc (by omega)
      rw [parseDigits_go_append _ _ _ _ hrec]
      have hm : n % 10 < 10 := Nat.mod_lt _ (by omega)
      simp only [parseDigits.go, digitVal_digitChar10 (n % 10) hm, Option.some_bind,
        List.length_append, List.length_singleton, Option.some.injEq]
      have h2 : 10 * (n / 10) + n % 10 = n := Nat.div_add_mod n 10
      calc 10 * (acc * 10 ^ (natDigitsGo f (n / 10)).length + n / 10) + n % 10
          = acc * 10 ^ (natDigitsGo f (n / 10)).length * 10 + (10 * (n / 10) + n % 10) := by
            ring
        _ = acc * 10 ^ ((natDigitsGo f (n / 10)).length + 1) + n := by rw [h2, pow_succ]; ring

/-- `int(str(n)) = n`: parsing the canonical decimal rendering recovers `n`. -/
theorem pyInt_natRepr (n : Nat) : pyInt (natRepr n) = some n := by
  have h1 : (natRepr n).data = natDigits n := rfl
  rw [pyInt, h1, parseDigits_eq_go _ (natDigits_ne_nil n), natDigits,
    parseDigits_go_natDigitsGo (n + 1) n 0 (by omega)]
  simp

theorem natRepr_data_ne_nil (n : Nat) : (natRepr n).data ≠ [] :=
  natDigits_ne_nil n

theorem natRepr_no_slash (n : Nat) : '/' ∉ (natRepr n).data :=
  natDigits_no_slash n

/-- The canonical shape of every structural path emitted by the key-map
generator: a leading slash then slash-separated parts. -/
def slashJoin (parts : List String) : String :=
  parts.foldl (fun acc s => acc ++ "/" ++ s) ""

/-- Character-level view of `slashJoin`. -/
def interData : List String → List Char
  | [] => []
  | s :: rest => '/' :: (s.data ++ interData rest)

theorem foldl_slashJoin_data (parts : List String) (acc : String) :
    (parts.foldl (fun acc s => acc ++ "/" ++ s) acc).data = acc.data ++ interData parts := by
  induction parts generalizing acc with
  | nil => simp [interData]
  | cons p rest ih =>
    simp only [List.foldl_cons, ih, interData, String.data_append]
    simp

theorem slashJoin_data (parts : List String) :
    (slashJoin parts).data = interData parts := by
  simpa using foldl_slashJoin_data parts ""

theorem slashJoin_append_single (parts : List String) (s : String) :
    slashJoin (parts ++ [s]) = slashJoin parts ++ "/" ++ s := by
  simp [slashJoin, List.foldl_append]

/-- A part is "good" when nonempty and slash-free: every segment the key-map
generator interpolates into a path has this shape. -/
def GoodPart (s : String) : Prop := s.data ≠ [] ∧ '/' ∉ s.data

theorem stringMk_data (s : String) : String.mk s.data = s := rfl

theorem interData_getLast_ne_slash (parts : List String)
    (hgood : ∀ s ∈ parts, GoodPart s) (hne : parts ≠ []) :
    (interData parts).getLast? ≠ some '/' := by
  induction parts with
  | nil => exact absurd rfl hne
  | cons p rest ih =>
    cases rest with
    | nil =>
      simp only [interData, List.append_nil]
      obtain ⟨hpn, hps⟩ := hgood p (List.mem_cons_self _ _)
      intro hlast
      rw [show ('/' :: p.data) = [('/' : Char)] ++ p.data from rfl,
        List.getLast?_append_of_ne_nil _ hpn] at hlast
      obtain ⟨hn, heq⟩ := List.mem_getLast?_eq_getLast (Option.mem_def.mpr hlast)
      exact hps (heq ▸ List.getLast_mem hn)
    | cons q rest' =>
      intro hlast
      have hy : interData (q :: rest') ≠ [] := by simp [interData]
      have hlast2 : (('/' :: p.data) ++ interData (q :: rest')).getLast? = some '/' := by
        rw [show (('/' :: p.data) ++ interData (q :: rest')) = interData (p :: q :: rest')
              from by simp [interData]]
        exact hlast
      rw [List.getLast?_append_of_ne_nil _ hy] at hlast2
      exact ih (fun s hs => hgood s (List.mem_cons_of_mem _ hs)) (by simp) hlast2

theorem stripSlash_of_getLast_ne_slash (cs : List Char) (h : cs.getLast? ≠ some '/') :
    stripSlash cs = dropLeadSlash cs := by
  unfold stripSlash
  rw [dropLeadSlash_no_slash_head cs.reverse (by rwa [List.head?_reverse]),
    List.reverse_reverse]

theorem splitSlash_body (parts : List String) (hgood : ∀ s ∈ parts, GoodPart s) :
    ∀ p, GoodPart p → splitSlash (p.data ++ interData parts) = (p :: parts).map String.data := by
  induction parts with
  | nil =>
    intro p hp
    simp [interData, splitSlash_no_slash p.data hp.2]
  | cons q rest ih =>
    intro p hp
    simp only [interData]
    rw [splitSlash_append_sep, splitSlash_no_slash p.data hp.2,
      ih (fun s hs => hgood s (List.mem_cons_of_mem _ hs)) q (hgood q (List.mem_cons_self _ _))]
    simp

/-- Parsing (`strip("/")` + `split("/")`) inverts path construction for
slash-joined good parts. -/
theorem pathParts_slashJoin (parts : List String) (hne : parts ≠ [])
    (hgood : ∀ s ∈ parts, GoodPart s) :
    pathParts (slashJoin parts) = parts := by
  cases parts with
  | nil => exact absurd rfl hne
  | cons p rest =>
    unfold pathParts
    rw [slashJoin_data]
    have hlast := interData_getLast_ne_slash (p :: rest) hgood (by simp)
    rw [stripSlash_of_getLast_ne_slash _ hlast]
    have hp := hgood p (List.mem_cons_self _ _)
    have hhead : (p.data ++ interData rest).head? ≠ some '/' := by
      cases hd : p.data with
      | nil => exact absurd hd hp.1
      | cons c cs =>
        simp only [List.cons_append, List.head?, ne_eq, Option.some.injEq]
        intro hc
        exact hp.2 (by rw [hd, hc]; exact List.mem_cons_self _ _)
    rw [show dropLeadSlash (interData (p :: rest)) = dropLeadSlash (p.data ++ interData rest)
          from rfl]
    rw [dropLeadSlash_no_slash_head _ hhead,
      splitSlash_body rest (fun s hs => hgood s (List.mem_cons_of_mem _ hs)) p hp]
    have hcomp : (String.mk ∘ String.data) = id := funext stringMk_data
    simp [List.map_map, hcomp]

theorem sizeOf_lookupField {fs : List (String × Json)} {k : String} {v : Json}
    (h : lookupField fs k = some v) : sizeOf v < sizeOf fs := by
  induction fs with
  | nil => simp [lookupField] at h
  | cons f rest ih =>
    obtain ⟨k', v'⟩ := f
    simp only [lookupField] at h
    split at h
    · cases h
      simp only [List.cons.sizeOf_spec, Prod.mk.sizeOf_spec]
      omega
    · have := ih h
      simp only [List.cons.sizeOf_spec, Prod.mk.sizeOf_spec]
      omega

theorem sizeOf_jget {j : Json} {k : String} {v : Json}
    (h : jget j k = some v) : sizeOf v < sizeOf j := by
  cases j <;> simp only [jget] at h <;> try exact absurd h (by simp)
  case obj fs =>
    have := sizeOf_lookupField h
    simp only [Json.obj.sizeOf_spec]
    omega

theorem sizeOf_jArrD (v : Json) : sizeOf (jArrD v) ≤ sizeOf v := by
  cases v <;> simp [jArrD] <;> omega

/-- `item.get("type") == t`: true exactly when the value is a dict whose
`"type"` field is the string `t`. -/
def isType (item : Json) (t : String) : Bool :=
  match jget item "type" with
  | some (.str s) => s == t
  | _ => false

/-- The underlying string of a JSON string; `""` otherwise (a non-string value
at such a position would make the source's `"\n".join(...)` raise). -/
def jStr : Json → String
  | .str s => s
  | _ => ""

/-- Python `str()` of a JSON-shaped value as interpolated by f-strings.  String
values render as themselves — the only case arising from restructured trees;
other values get a fixed placeholder (Python would render them `repr`-style;
no claim depends on that text). -/
def pyStr : Json → String
  | .str s => s
  | .num n => if n < 0 then "-" ++ natRepr n.natAbs else natRepr n.toNat
  | .bool true => "True"
  | .bool false => "False"
  | .null => "None"
  | .arr _ => "<list>"
  | .obj _ => "<dict>"

/-- The inner loop of `_extract_abstract_summary`: the `content` /
`translated_content` strings of dict items typed `"text"`, in order. -/
def abstractTexts : List Json → List String × List String
  | [] => ([], [])
  | item :: rest =>
    let r := abstractTexts rest
    if isType item "text" then
      (jStr (jgetD item "content" (.str "")) :: r.1,
       jStr (jgetD item "translated_content" (.str "")) :: r.2)
    else r

/-- `_extract_abstract_summary`: newline-joined content and translated content
of the first `abstract`-typed section; `("", "")` when there is none. -/
def extractAbstractSummary : List Json → String × String
  | [] => ("", "")
  | s :: rest =>
    if isType s "abstract" then
      let t := abstractTexts (jArrD (jgetD s "content" (.arr [])))
      (String.intercalate "\n" t.1, String.intercalate "\n" t.2)
    else extractAbstractSummary rest

/-- `_filter_sections`: drop sections typed `abstract` or `references`. -/
def filterSections (sections : List Json) : List Json :=
  sections.filter (fun s => !(isType s "abstract") && !(isType s "references"))

/-- The per-item body of the content loop in `_restructure_sections`: keep
`type` and the reassigned `index`, plus the type-specific field set. -/
def restructureItem (item : Json) (idx : Nat) : Json :=
  let typeFields :=
    if isType item "text" then
      [("content", jgetD item "content" (.str "")),
       ("translated_content", jgetD item "translated_content" (.str "")),
       ("questions", jgetD item "questions" (.str ""))]
    else if isType item "figure" then
      [("src", jgetD item "src" (.str "")),
       ("alt", jgetD item "alt" (.str "")),
       ("caption", jgetD item "caption" (.str "")),
       ("translated_caption", jgetD item "translated_caption" (.str "")),
       ("questions", jgetD item "questions" (.str ""))]
    else if isType item "table" then
      [("content", jgetD item "content" (.str "")),
       ("caption", jgetD item "caption" (.str "")),
       ("translated_caption", jgetD item "translated_caption" (.str "")),
       ("questions", jgetD item "questions" (.str ""))]
    else if isType item "formula" then
      [("content", jgetD item "content" (.str "")),
       ("formula_analysis", jgetD item "formula_analysis" (.str ""))]
    else []
  Json.obj (("type", jgetD item "type" (.str "")) :: ("index", Json.num idx) :: typeFields)

/-- The content loop of `_restructure_sections`: only dict items are kept, and
`content_index` advances only on kept items. -/
def restructureItems : List Json → Nat → List Json
  | [], _ => []
  | item :: rest, idx =>
    match item with
    | .obj fs => restructureItem (.obj fs) idx :: restructureItems rest (idx + 1)
    | _ => restructureItems rest idx

theorem sizeOf_json_pos (j : Json) : 1 ≤ sizeOf j := by
  cases j <;> simp <;> omega

theorem sizeOf_listJson_pos (l : List Json) : 1 ≤ sizeOf l := by
  cases l <;> simp <;> omega

/-- The list a section's recursion descends into: `section.get("children", [])`
when `"children" in section and section["children"]` holds, `[]` otherwise.
(A truthy non-list `children` would make the source raise while iterating;
`jArrD` renders those unreachable inputs as `[]`, and recursing on `[]` yields
`[]` exactly as the source's skipped branch does.) -/
def childrenListOf (s : Json) : List Json :=
  match jget s "children" with
  | some v => if jTruthy v then jArrD v else []
  | none => []

theorem sizeOf_childrenListOf (s : Json) : sizeOf (childrenListOf s) < 1 + sizeOf s := by
  have hs := sizeOf_json_pos s
  unfold childrenListOf
  cases h : jget s "children" with
  | none =>
    simp only [List.nil.sizeOf_spec]
    omega
  | some v =>
    have h1 := sizeOf_jArrD v
    have h2 := sizeOf_jget h
    by_cases ht : jTruthy v
    · simp [ht]
      omega
    · simp [ht]
      omega

theorem sizeOf_childrenListOf_lt_cons (s : Json) (rest : List Json) :
    sizeOf (childrenListOf s) < sizeOf (s :: rest) := by
  have h1 := sizeOf_childrenListOf s
  have h2 := sizeOf_listJson_pos rest
  simp only [List.cons.sizeOf_spec]
  omega

theorem sizeOf_rest_lt_cons (s : Json) (rest : List Json) :
    sizeOf rest < sizeOf (s :: rest) := by
  have := sizeOf_json_pos s
  simp only [List.cons.sizeOf_spec]
  omega

/-- The per-section record built by the `_restructure_sections` loop body,
given the already-restructured children. -/
def restructureSection (s : Json) (level : Nat) (children : List Json) : Json :=
  Json.obj [("title", jgetD s "title" (.str "")),
    ("translated_title", jgetD s "translated_title" (.str "")),
    ("level", Json.num level),
    ("summary", jgetD s "summary" (.str "")),
    ("content", Json.arr (restructureItems (jArrD (jgetD s "content" (.arr []))) 0)),
    ("children", Json.arr children)]

/-- `_restructure_sections`: rebuild every section with the fixed field set,
renumbered content indices and depth-assigned `level`. -/
def restructureSections : List Json → Nat → List Json
  | [], _ => []
  | s :: rest, level =>
    restructureSection s level (restructureSections (childrenListOf s) (level + 1))
      :: restructureSections rest level
termination_by l => sizeOf l
decreasing_by
  all_goals first
    | exact sizeOf_childrenListOf_lt_cons _ _
    | exact sizeOf_rest_lt_cons _ _

/-- The content-key loop of `_generate_key_map`:
`key_map[sectionKey/j/type] = currentJsonPath/content/j`. -/
def contentKeysAux : List Json → Nat → String → String → List (String × String)
  | [], _, _, _ => []
  | item :: rest, j, sectionKey, currentJsonPath =>
    (sectionKey ++ "/" ++ natRepr j ++ "/" ++ pyStr (jgetD item "type" (.str "")),
      currentJsonPath ++ "/content/" ++ natRepr j)
      :: contentKeysAux rest (j + 1) sectionKey currentJsonPath

/-- `_generate_key_map` as the ordered pair stream written into the dict:
section entry, then content entries, then the child subtree, then the next
sibling. -/
def generateKeyMapAux : List Json → Nat → String → String → String → List (String × String)
  | [], _, _, _, _ => []
  | s :: rest, i, title, parentPath, parentJsonPath =>
    let sectionTitle := pyStr (jgetD s "title" (.str ""))
    let sectionPath :=
      if parentPath ≠ "" then parentPath ++ "/" ++ sectionTitle else sectionTitle
    let currentJsonPath :=
      if parentJsonPath = "" then "/sections/" ++ natRepr i
      else parentJsonPath ++ "/" ++ natRepr i
    let sectionKey := title ++ "/" ++ sectionPath ++ "/section"
    let contentEntries :=
      contentKeysAux (jArrD (jgetD s "content" (.arr []))) 0 sectionKey currentJsonPath
    let childEntries :=
      generateKeyMapAux (childrenListOf s) 0 title sectionPath (currentJsonPath ++ "/children")
    ((sectionKey, currentJsonPath) :: contentEntries ++ childEntries)
      ++ generateKeyMapAux rest (i + 1) title parentPath parentJsonPath
termination_by l => sizeOf l
decreasing_by
  all_goals first
    | exact sizeOf_childrenListOf_lt_cons _ _
    | exact sizeOf_rest_lt_cons _ _

/-- `_get_node_by_json_path`'s walk over the already-split path parts. -/
def resolveKeys : List String → Json → Option Json
  | [], node => some node
  | key :: rest, node =>
    match node with
    | .arr xs =>
      match pyInt key with
      | some k => if h : k < xs.length then resolveKeys rest xs[k] else none
      | none => none
    | .obj fs =>
      match lookupField fs key with
      | some v => resolveKeys rest v
      | none => none
    | _ => none

/-- `RagProcessor._get_node_by_json_path`: `None` on an empty path, otherwise
strip slashes, split on `/`, and walk dicts by key and lists by parsed index. -/
def getNodeByJsonPath (jsonPath : String) (jsonData : Json) : Option Json :=
  if jsonPath = "" then none
  else resolveKeys (pathParts jsonPath) jsonData

/-- Python dict construction from a `(key, value)` stream: an existing key
keeps its position and takes the latest value. -/
def dictInsert : List (String × Json) → String → Json → List (String × Json)
  | [], k, v => [(k, v)]
  | (k', v') :: rest, k, v =>
    if k' = k then (k', v) :: rest else (k', v') :: dictInsert rest k v

def dictOfPairs (pairs : List (String × Json)) : List (String × Json) :=
  pairs.foldl (fun d kv => dictInsert d kv.1 kv.2) []

/-- The `RagProcessor.process` transformation on the loaded paper JSON (file IO
elided): extract the abstract, overwrite the top-level `abstract`, drop
`abstract`/`references` sections, restructure, attach the generated `key_map`
(serialised with Python-dict update semantics).  The duplicated
`_extract_abstract_summary` call in the source is pure and hence collapsed. -/
def processTree (paperData : Json) : Json :=
  let sections0 := jArrD (jgetD paperData "sections" (.arr []))
  let abstractPair := extractAbstractSummary sections0
  let fsections := filterSections sections0
  let rsections := restructureSections fsections 1
  let title := jgetD paperData "title" (.str "")
  let keyMap := generateKeyMapAux rsections 0 (pyStr title) "" ""
  Json.obj [("title", title),
    ("translated_title", jgetD paperData "translated_title" (.str "")),
    ("abstract", Json.obj [("content", Json.str abstractPair.1),
      ("translated_content", Json.str abstractPair.2)]),
    ("sections", Json.arr rsections),
    ("key_map", Json.obj (dictOfPairs (keyMap.map (fun kv => (kv.1, Json.str kv.2)))))]

/-- The key map generated for a paper by `process` (the list of pairs written
into the `key_map` dict, in write order). -/
def keyMapOf (paperData : Json) : List (String × String) :=
  generateKeyMapAux
    (restructureSections (filterSections (jArrD (jgetD paperData "sections" (.arr [])))) 1)
    0 (pyStr (jgetD paperData "title" (.str ""))) "" ""

theorem resolveKeys_append (a b : List String) (t : Json) :
    resolveKeys (a ++ b) t = (resolveKeys a t).bind (fun n => resolveKeys b n) := by
  induction a generalizing t with
  | nil => simp [resolveKeys]
  | cons key rest ih =>
    cases t with
    | arr xs =>
      simp only [List.cons_append, resolveKeys]
      cases pyInt key with
      | none => simp
      | some k =>
        by_cases h : k < xs.length
        · simp only [dif_pos h]
          exact ih _
        · simp [dif_neg h]
    | obj fs =>
      simp only [List.cons_append, resolveKeys]
      cases lookupField fs key with
      | none => simp
      | some v => exact ih _
    | null => simp [resolveKeys]
    | bool b' => simp [resolveKeys]
    | num n => simp [resolveKeys]
    | str s => simp [resolveKeys]

theorem resolveKeys_index (i : Nat) (xs : List Json) (rest : List String)
    (h : i < xs.length) :
    resolveKeys (natRepr i :: rest) (.arr xs) = resolveKeys rest xs[i] := by
  simp only [resolveKeys, pyInt_natRepr, dif_pos h]

/-- Shape of every section emitted by `_restructure_sections`: the fixed field
list, with array-valued `content` and `children`, recursively. -/
inductive SecShape : Json → Prop where
  | mk : ∀ (t tt lv sm : Json) (items children : List Json),
      (∀ c ∈ children, SecShape c) →
      SecShape (Json.obj [("title", t), ("translated_title", tt), ("level", lv),
        ("summary", sm), ("content", Json.arr items), ("children", Json.arr children)])

theorem restructureSections_shape (n : Nat) :
    ∀ (sections : List Json), sizeOf sections ≤ n →
    ∀ level, ∀ s ∈ restructureSections sections level, SecShape s := by
  induction n using Nat.strong_induction_on with
  | _ n ih =>
    intro sections hsz level s hs
    cases sections with
    | nil => simp [restructureSections] at hs
    | cons s0 rest =>
      rw [restructureSections] at hs
      have hsz' : sizeOf (s0 :: rest) = 1 + sizeOf s0 + sizeOf rest := by
        simp [List.cons.sizeOf_spec]
      rcases List.mem_cons.mp hs with h1 | h2
      · subst h1
        unfold restructureSection
        apply SecShape.mk
        intro c hc
        have hlt : sizeOf (childrenListOf s0) < n := by
          have ha := sizeOf_childrenListOf s0
          have hb := sizeOf_listJson_pos rest
          omega
        exact ih _ hlt _ le_rfl (level + 1) c hc
      · have hlt : sizeOf rest < n := by
          have := sizeOf_json_pos s0
          omega
        exact ih (sizeOf rest) hlt rest le_rfl level s h2

theorem slashJoin_ne_empty (parts : List String) (h : parts ≠ []) : slashJoin parts ≠ "" := by
  intro he
  have hd : (slashJoin parts).data = [] := by rw [he]
  rw [slashJoin_data] at hd
  cases parts with
  | nil => exact h rfl
  | cons p rest => simp [interData] at hd

theorem rootSection_path_eq (i : Nat) :
    "/sections/" ++ natRepr i = slashJoin ["sections", natRepr i] := by
  apply String.ext
  rw [String.data_append, slashJoin_data]
  show ['/','s','e','c','t','i','o','n','s','/'] ++ (natRepr i).data
      = interData ["sections", natRepr i]
  simp [interData]

theorem contentPath_eq (cur s : String) :
    cur ++ "/content/" ++ s = (cur ++ "/" ++ "content") ++ "/" ++ s := by
  apply String.ext
  simp only [String.data_append, List.append_assoc]
  congr 1

theorem childrenPath_eq (cur : String) :
    cur ++ "/children" = cur ++ "/" ++ "children" := by
  apply String.ext
  simp only [String.data_append, List.append_assoc]
  congr 1

theorem goodPart_natRepr (n : Nat) : GoodPart (natRepr n) :=
  ⟨natRepr_data_ne_nil n, natRepr_no_slash n⟩

theorem goodPart_sections : GoodPart "sections" := ⟨by decide, by decide⟩

theorem goodPart_content : GoodPart "content" := ⟨by decide, by decide⟩

theorem goodPart_children : GoodPart "children" := ⟨by decide, by decide⟩

theorem contentKeysAux_mem :
    ∀ (items : List Json) (j0 : Nat) (sk cur : String) (kp : String × String),
    kp ∈ contentKeysAux items j0 sk cur →
    ∃ d, d < items.length ∧ kp.2 = cur ++ "/content/" ++ natRepr (j0 + d) := by
  intro items
  induction items with
  | nil =>
    intro j0 sk cur kp h
    simp [contentKeysAux] at h
  | cons it rest ih =>
    intro j0 sk cur kp h
    rw [contentKeysAux] at h
    rcases List.mem_cons.mp h with h1 | h2
    · refine ⟨0, by simp, ?_⟩
      rw [h1]
      simp
    · obtain ⟨d, hd, hp⟩ := ih (j0 + 1) sk cur kp h2
      refine ⟨d + 1, by simpa using hd, ?_⟩
      rw [hp]
      have : j0 + 1 + d = j0 + (d + 1) := by omega
      rw [this]

theorem drop_cons_facts {α} (l : List α) (i : Nat) (s : α) (rest : List α)
    (h : l.drop i = s :: rest) :
    ∃ hi : i < l.length, l[i] = s ∧ l.drop (i + 1) = rest := by
  have hi : i < l.length := by
    by_contra hle
    rw [List.drop_eq_nil_of_le (by omega)] at h
    exact List.noConfusion h
  refine ⟨hi, ?_, ?_⟩
  · have h0 : (l.drop i).head? = some s := by rw [h]; rfl
    rw [List.head?_drop, List.getElem?_eq_getElem hi] at h0
    exact Option.some.inj h0
  · have : l.drop (i + 1) = (l.drop i).tail := by
      rw [List.tail_drop]
    rw [this, h]
    rfl

theorem getNode_slashJoin_isSome (Qs : List String) (T : Json) (hne : Qs ≠ [])
    (hgood : ∀ q ∈ Qs, GoodPart q) (v : Json) (hres : resolveKeys Qs T = some v) :
    (getNodeByJsonPath (slashJoin Qs) T).isSome := by
  unfold getNodeByJsonPath
  rw [if_neg (slashJoin_ne_empty Qs hne), pathParts_slashJoin Qs hne hgood, hres]
  rfl

theorem goodParts_append_single {P : List String} {s : String}
    (hP : ∀ q ∈ P, GoodPart q) (hs : GoodPart s) : ∀ q ∈ P ++ [s], GoodPart q := by
  intro q hq
  rcases List.mem_append.mp hq with h | h
  · exact hP q h
  · simp only [List.mem_singleton] at h
    subst h
    exact hs

theorem keyMap_sound_aux (n : Nat) :
    ∀ (secs allSecs : List Json) (i : Nat) (T : Json) (Q : List String)
      (title pp pjp : String),
      sizeOf secs ≤ n →
      (∀ q ∈ Q, GoodPart q) →
      ((pjp = "" ∧ Q = ["sections"]) ∨ (pjp = slashJoin Q ∧ Q ≠ [])) →
      resolveKeys Q T = some (.arr allSecs) →
      allSecs.drop i = secs →
      (∀ s ∈ secs, SecShape s) →
      ∀ kp ∈ generateKeyMapAux secs i title pp pjp,
        (getNodeByJsonPath kp.2 T).isSome := by
  induction n using Nat.strong_induction_on with
  | _ n ih =>
    intro secs allSecs i T Q title pp pjp hsz hQgood hQ hres hdrop hshape kp hkp
    cases secs with
    | nil => simp [generateKeyMapAux] at hkp
    | cons s rest =>
      obtain ⟨hi, hgeti, hdrop2⟩ := drop_cons_facts allSecs i s rest hdrop
      have hshs := hshape s (List.mem_cons_self _ _)
      cases hshs with
      | mk t tt lv sm items children hchild =>
      simp only [generateKeyMapAux] at hkp
      set S : Json := Json.obj [("title", t), ("translated_title", tt), ("level", lv),
        ("summary", sm), ("content", Json.arr items), ("children", Json.arr children)]
        with hS
      set cur : String :=
        (if pjp = "" then "/sections/" ++ natRepr i else pjp ++ "/" ++ natRepr i)
        with hcurdef
      have hQigood : ∀ q ∈ Q ++ [natRepr i], GoodPart q :=
        goodParts_append_single hQgood (goodPart_natRepr i)
      have hcur : cur = slashJoin (Q ++ [natRepr i]) := by
        rcases hQ with ⟨hp, hQe⟩ | ⟨hp, hQne⟩
        · rw [hcurdef, hp, if_pos rfl, hQe]
          exact rootSection_path_eq i
        · have hne : pjp ≠ "" := by rw [hp]; exact slashJoin_ne_empty Q hQne
          rw [hcurdef, if_neg hne, hp, slashJoin_append_single]
      have hresQi : resolveKeys (Q ++ [natRepr i]) T = some S := by
        rw [resolveKeys_append, hres, Option.some_bind, resolveKeys_index i allSecs [] hi]
        simp [resolveKeys, hgeti]
      rcases List.mem_append.mp hkp with hmem | hrest
      · rcases List.mem_cons.mp hmem with h1 | h23
        · have h2 : kp.2 = cur := by rw [h1]
          rw [h2, hcur]
          exact getNode_slashJoin_isSome _ _ (by simp) hQigood S hresQi
        · rcases List.mem_append.mp h23 with hcont | hchildm
          · have hitems : jArrD (jgetD S "content" (.arr [])) = items := by rw [hS]; rfl
            rw [hitems] at hcont
            obtain ⟨d, hd, hp2⟩ := contentKeysAux_mem items 0 _ _ kp hcont
            simp only [Nat.zero_add] at hp2
            have hpath : cur ++ "/content/" ++ natRepr d
                = slashJoin (((Q ++ [natRepr i]) ++ ["content"]) ++ [natRepr d]) := by
              rw [slashJoin_append_single, slashJoin_append_single, ← hcur, contentPath_eq]
            have hstepc : resolveKeys ["content"] S = some (Json.arr items) := by
              rw [hS]; rfl
            have hstepd : resolveKeys [natRepr d] (Json.arr items) = some items[d] := by
              rw [resolveKeys_index d items [] hd]; rfl
            have hresFull :
                resolveKeys (((Q ++ [natRepr i]) ++ ["content"]) ++ [natRepr d]) T
                  = some items[d] := by
              rw [resolveKeys_append, resolveKeys_append, hresQi, Option.some_bind,
                hstepc, Option.some_bind, hstepd]
            rw [hp2, hpath]
            exact getNode_slashJoin_isSome _ _ (by simp) (goodParts_append_single
              (goodParts_append_single hQigood goodPart_content) (goodPart_natRepr d))
              items[d] hresFull
          · by_cases hcnil : children = []
            · subst hcnil
              have hcl : childrenListOf S = [] := by rw [hS]; rfl
              rw [hcl] at hchildm
              simp [generateKeyMapAux] at hchildm
            · have hcl : childrenListOf S = children := by
                rw [hS]
                cases children with
                | nil => exact absurd rfl hcnil
                | cons c cs => rfl
              rw [hcl] at hchildm
              have hgetChildren : jget S "children" = some (Json.arr children) := by
                rw [hS]; rfl
              have hszc : sizeOf children < n := by
                have h1 := sizeOf_jget hgetChildren
                have h2 : sizeOf (Json.arr children) = 1 + sizeOf children := by simp
                have h4 : sizeOf (S :: rest) = 1 + sizeOf S + sizeOf rest := by simp
                have h5 := sizeOf_listJson_pos rest
                omega
              have hpjp2 : cur ++ "/children"
                  = slashJoin ((Q ++ [natRepr i]) ++ ["children"]) := by
                rw [slashJoin_append_single, ← hcur, childrenPath_eq]
              have hresC : resolveKeys ((Q ++ [natRepr i]) ++ ["children"]) T
                  = some (Json.arr children) := by
                rw [resolveKeys_append, hresQi, Option.some_bind, hS]; rfl
              exact ih (sizeOf children) hszc children children 0 T
                ((Q ++ [natRepr i]) ++ ["children"]) title _ (cur ++ "/children")
                le_rfl (goodParts_append_single hQigood goodPart_children)
                (Or.inr ⟨hpjp2, by simp⟩) hresC (List.drop_zero _) hchild kp hchildm
      · have hsz2 : sizeOf rest < n := lt_of_lt_of_le (sizeOf_rest_lt_cons S rest) hsz
        exact ih (sizeOf rest) hsz2 rest allSecs (i + 1) T Q title pp pjp le_rfl
          hQgood hQ hres hdrop2 (fun x hx => hshape x (List.mem_cons_of_mem _ hx)) kp hrest

/-- Fuel-driven twin of `restructureSections` (structural recursion, hence
kernel-computable); agrees with the model whenever the fuel covers the input,
see `restructureSectionsF_eq`. -/
def restructureSectionsF : Nat → List Json → Nat → List Json
  | 0, _, _ => []
  | _ + 1, [], _ => []
  | fuel + 1, s :: rest, level =>
    restructureSection s level (restructureSectionsF fuel (childrenListOf s) (level + 1))
      :: restructureSectionsF fuel rest level

theorem restructureSectionsF_eq (fuel : Nat) :
    ∀ (l : List Json) (level : Nat), sizeOf l ≤ fuel →
    restructureSectionsF fuel l level = restructureSections l level := by
  induction fuel with
  | zero =>
    intro l level h
    have := sizeOf_listJson_pos l
    omega
  | succ f ih =>
    intro l level h
    cases l with
    | nil => rw [restructureSectionsF, restructureSections]
    | cons s rest =>
      rw [restructureSectionsF, restructureSections]
      have h1 := sizeOf_childrenListOf_lt_cons s rest
      have h2 := sizeOf_rest_lt_cons s rest
      rw [ih (childrenListOf s) (level + 1) (by omega), ih rest level (by omega)]

/-- Fuel-driven twin of `generateKeyMapAux`, kernel-computable; see
`generateKeyMapAuxF_eq`. -/
def generateKeyMapAuxF : Nat → List Json → Nat → String → String → String → List (String × String)
  | 0, _, _, _, _, _ => []
  | _ + 1, [], _, _, _, _ => []
  | fuel + 1, s :: rest, i, title, parentPath, parentJsonPath =>
    let sectionTitle := pyStr (jgetD s "title" (.str ""))
    let sectionPath :=
      if parentPath ≠ "" then parentPath ++ "/" ++ sectionTitle else sectionTitle
    let currentJsonPath :=
      if parentJsonPath = "" then "/sections/" ++ natRepr i
      else parentJsonPath ++ "/" ++ natRepr i
    let sectionKey := title ++ "/" ++ sectionPath ++ "/section"
    let contentEntries :=
      contentKeysAux (jArrD (jgetD s "content" (.arr []))) 0 sectionKey currentJsonPath
    let childEntries :=
      generateKeyMapAuxF fuel (childrenListOf s) 0 title sectionPath
        (currentJsonPath ++ "/children")
    ((sectionKey, currentJsonPath) :: contentEntries ++ childEntries)
      ++ generateKeyMapAuxF fuel rest (i + 1) title parentPath parentJsonPath

theorem generateKeyMapAuxF_eq (fuel : Nat) :
    ∀ (l : List Json) (i : Nat) (title pp pjp : String), sizeOf l ≤ fuel →
    generateKeyMapAuxF fuel l i title pp pjp = generateKeyMapAux l i title pp pjp := by
  induction fuel with
  | zero =>
    intro l i title pp pjp h
    have := sizeOf_listJson_pos l
    omega
  | succ f ih =>
    intro l i title pp pjp h
    cases l with
    | nil => rw [generateKeyMapAuxF, generateKeyMapAux]
    | cons s rest =>
      rw [generateKeyMapAuxF, generateKeyMapAux]
      have h1 := sizeOf_childrenListOf_lt_cons s rest
      have h2 := sizeOf_rest_lt_cons s rest
      rw [ih (childrenListOf s) 0 title _ _ (by omega), ih rest (i + 1) title pp pjp (by omega)]

/-- Kernel-computable twin of `processTree`, with explicit fuel. -/
def processTreeF (fuel : Nat) (paperData : Json) : Json :=
  let sections0 := jArrD (jgetD paperData "sections" (.arr []))
  let abstractPair := extractAbstractSummary sections0
  let fsections := filterSections sections0
  let rsections := restructureSectionsF fuel fsections 1
  let title := jgetD paperData "title" (.str "")
  let keyMap := generateKeyMapAuxF fuel rsections 0 (pyStr title) "" ""
  Json.obj [("title", title),
    ("translated_title", jgetD paperData "translated_title" (.str "")),
    ("abstract", Json.obj [("content", Json.str abstractPair.1),
      ("translated_content", Json.str abstractPair.2)]),
    ("sections", Json.arr rsections),
    ("key_map", Json.obj (dictOfPairs (keyMap.map (fun kv => (kv.1, Json.str kv.2)))))]

theorem processTreeF_eq (fuel : Nat) (paperData : Json)
    (h1 : sizeOf (filterSections (jArrD (jgetD paperData "sections" (.arr [])))) ≤ fuel)
    (h2 : sizeOf (restructureSectionsF fuel
      (filterSections (jArrD (jgetD paperData "sections" (.arr [])))) 1) ≤ fuel) :
    processTreeF fuel paperData = processTree paperData := by
  simp only [processTreeF, processTree]
  rw [restructureSectionsF_eq fuel _ _ h1]
  rw [generateKeyMapAuxF_eq fuel _ _ _ _ _
    (by rw [← restructureSectionsF_eq fuel _ _ h1]; exact h2)]

/-- Kernel-computable twin of `keyMapOf`, with explicit fuel. -/
def keyMapOfF (fuel : Nat) (paperData : Json) : List (String × String) :=
  let fsections := filterSections (jArrD (jgetD paperData "sections" (.arr [])))
  let rsections := restructureSectionsF fuel fsections 1
  generateKeyMapAuxF fuel rsections 0
    (pyStr (jgetD paperData "title" (.str ""))) "" ""

theorem keyMapOfF_eq (fuel : Nat) (paperData : Json)
    (h1 : sizeOf (filterSections (jArrD (jgetD paperData "sections" (.arr [])))) ≤ fuel)
    (h2 : sizeOf (restructureSectionsF fuel
      (filterSections (jArrD (jgetD paperData "sections" (.arr [])))) 1) ≤ fuel) :
    keyMapOfF fuel paperData = keyMapOf paperData := by
  simp only [keyMapOfF, keyMapOf]
  rw [restructureSectionsF_eq fuel _ _ h1]
  rw [generateKeyMapAuxF_eq fuel _ _ _ _ _
    (by rw [← restructureSectionsF_eq fuel _ _ h1]; exact h2)]

/-- C1.  KeyMap soundness: for every input paper tree, every `(key, path)`
pair the RAG processor's key-map generator emits resolves through
`_get_node_by_json_path` against the produced restructured tree to a non-null
node (path resolution never returns `None` for a generated key). -/
theorem C1_keymap_sound (paperData : Json) :
    ∀ kp ∈ keyMapOf paperData,
      (getNodeByJsonPath kp.2 (processTree paperData)).isSome := by
  intro kp hkp
  exact keyMap_sound_aux
    (sizeOf (restructureSections
      (filterSections (jArrD (jgetD paperData "sections" (.arr [])))) 1))
    (restructureSections (filterSections (jArrD (jgetD paperData "sections" (.arr [])))) 1)
    (restructureSections (filterSections (jArrD (jgetD paperData "sections" (.arr [])))) 1)
    0 (processTree paperData) ["sections"]
    (pyStr (jgetD paperData "title" (.str ""))) "" ""
    le_rfl
    (by
      intro q hq
      simp only [List.mem_singleton] at hq
      subst hq
      exact goodPart_sections)
    (Or.inl ⟨rfl, rfl⟩)
    rfl
    (List.drop_zero _)
    (fun s hs => restructureSections_shape
      (sizeOf (filterSections (jArrD (jgetD paperData "sections" (.arr [])))))
      (filterSections (jArrD (jgetD paperData "sections" (.arr [])))) le_rfl 1 s hs)
    kp hkp

/-- A small concrete paper for the claim witnesses: an abstract section
followed by one section with text and formula content and one child. -/
def c1Paper : Json :=
  Json.obj [("title", .str "Doc"),
    ("sections", .arr [
      .obj [("type", .str "abstract"),
        ("content", .arr [.obj [("type", .str "text"), ("content", .str "AbsText"),
          ("translated_content", .str "AbsZh")]])],
      .obj [("title", .str "Intro"),
        ("content", .arr [.obj [("type", .str "text"), ("content", .str "hello")],
          .obj [("type", .str "formula"), ("content", .str "E")]]),
        ("children", .arr [.obj [("title", .str "Sub"),
          ("content", .arr [.obj [("type", .str "text"), ("content", .str "x")]])]])]])]

/-- Witness for C1: the generated pair for the `Intro` section resolves. -/
theorem C1_keymap_sound_witness :
    (getNodeByJsonPath ("Doc/Intro/section", "/sections/0").2 (processTree c1Paper)).isSome :=
  C1_keymap_sound c1Paper ("Doc/Intro/section", "/sections/0")
    (by rw [← keyMapOfF_eq 1000000 c1Paper (by decide) (by decide)]; decide)

theorem jget_restructureItem_type (item : Json) (idx : Nat) :
    jget (restructureItem item idx) "type" = some (jgetD item "type" (.str "")) := rfl

theorem match_typeVal (o : Option Json) (t : String) (ht : ¬ t = "") :
    (match some (o.getD (Json.str "")) with
     | some (.str s) => s == t
     | _ => false)
    = (match o with | some (.str s) => s == t | _ => false) := by
  cases o with
  | none =>
    have hb : ("" == t) = false := beq_eq_false_iff_ne.mpr (Ne.symm ht)
    simp only [Option.getD_none]
    exact hb
  | some v => cases v <;> rfl

theorem isType_restructureItem (item : Json) (idx : Nat) (t : String) (ht : ¬ t = "") :
    isType (restructureItem item idx) t = isType item t := by
  unfold isType
  rw [jget_restructureItem_type]
  exact match_typeVal (jget item "type") t ht

theorem restructureItem_idem (item : Json) (idx : Nat) :
    restructureItem (restructureItem item idx) idx = restructureItem item idx := by
  have e1 := isType_restructureItem item idx "text" (by decide)
  have e2 := isType_restructureItem item idx "figure" (by decide)
  have e3 := isType_restructureItem item idx "table" (by decide)
  have e4 := isType_restructureItem item idx "formula" (by decide)
  rw [restructureItem]
  rw [e1, e2, e3, e4]
  by_cases h1 : isType item "text" = true
  · simp [restructureItem, h1, jgetD, jget, lookupField]
  · by_cases h2 : isType item "figure" = true
    · simp [restructureItem, h1, h2, jgetD, jget, lookupField]
    · by_cases h3 : isType item "table" = true
      · simp [restructureItem, h1, h2, h3, jgetD, jget, lookupField]
      · by_cases h4 : isType item "formula" = true
        · simp [restructureItem, h1, h2, h3, h4, jgetD, jget, lookupField]
        · simp [restructureItem, h1, h2, h3, h4, jgetD, jget, lookupField]

theorem restructureItems_idem (items : List Json) :
    ∀ idx, restructureItems (restructureItems items idx) idx = restructureItems items idx := by
  induction items with
  | nil => intro idx; rfl
  | cons item rest ih =>
    intro idx
    cases item with
    | obj fs =>
      show restructureItems (restructureItem (.obj fs) idx :: restructureItems rest (idx + 1)) idx
          = restructureItem (.obj fs) idx :: restructureItems rest (idx + 1)
      rw [show restructureItems (restructureItem (.obj fs) idx :: restructureItems rest (idx + 1)) idx
            = restructureItem (restructureItem (.obj fs) idx) idx
              :: restructureItems (restructureItems rest (idx + 1)) (idx + 1) from rfl]
      rw [restructureItem_idem, ih]
    | null => exact ih idx
    | bool b => exact ih idx
    | num n => exact ih idx
    | str s => exact ih idx
    | arr xs => exact ih idx

theorem childrenListOf_restructureSection (s : Json) (level : Nat) (C : List Json) :
    childrenListOf (restructureSection s level C) = C := by
  cases C with
  | nil => rfl
  | cons c cs => rfl

theorem restructureSection_restructure (s : Json) (level : Nat) (C C2 : List Json) :
    restructureSection (restructureSection s level C) level C2
      = restructureSection s level C2 := by
  unfold restructureSection
  simp [jgetD, jget, lookupField, jArrD, restructureItems_idem]

theorem restructureSections_idem (n : Nat) :
    ∀ (l : List Json) (level : Nat), sizeOf l ≤ n →
    restructureSections (restructureSections l level) level = restructureSections l level := by
  induction n using Nat.strong_induction_on with
  | _ n ih =>
    intro l level hsz
    cases l with
    | nil => simp [restructureSections]
    | cons s rest =>
      rw [restructureSections]
      rw [show restructureSections
            (restructureSection s level (restructureSections (childrenListOf s) (level + 1))
              :: restructureSections rest level) level
          = restructureSection
              (restructureSection s level (restructureSections (childrenListOf s) (level + 1)))
              level
              (restructureSections (childrenListOf
                (restructureSection s level (restructureSections (childrenListOf s) (level + 1))))
                (level + 1))
            :: restructureSections (restructureSections rest level) level from by
        rw [restructureSections]]
      rw [childrenListOf_restructureSection]
      have hc := sizeOf_childrenListOf_lt_cons s rest
      have hr := sizeOf_rest_lt_cons s rest
      rw [ih (sizeOf (childrenListOf s)) (by omega) (childrenListOf s) (level + 1) le_rfl]
      rw [restructureSection_restructure]
      rw [ih (sizeOf rest) (by omega) rest level le_rfl]

theorem secShape_isType_false (s : Json) (hs : SecShape s) (t : String) :
    isType s t = false := by
  cases hs
  rfl

theorem filterSections_of_shapes (l : List Json) (h : ∀ s ∈ l, SecShape s) :
    filterSections l = l := by
  unfold filterSections
  apply List.filter_eq_self.mpr
  intro s hs
  rw [secShape_isType_false s (h s hs) "abstract", secShape_isType_false s (h s hs) "references"]
  rfl

theorem extractAbstractSummary_of_shapes (l : List Json) (h : ∀ s ∈ l, SecShape s) :
    extractAbstractSummary l = ("", "") := by
  induction l with
  | nil => rfl
  | cons s rest ih =>
    rw [extractAbstractSummary]
    rw [secShape_isType_false s (h s (List.mem_cons_self _ _)) "abstract"]
    simp only [Bool.false_eq_true, if_false]
    exact ih (fun x hx => h x (List.mem_cons_of_mem _ hx))

theorem processTree_title (pd : Json) :
    jgetD (processTree pd) "title" (.str "") = jgetD pd "title" (.str "") := rfl

theorem processTree_translated_title (pd : Json) :
    jgetD (processTree pd) "translated_title" (.str "")
      = jgetD pd "translated_title" (.str "") := rfl

theorem processTree_sections (pd : Json) :
    jgetD (processTree pd) "sections" (.arr [])
      = Json.arr (restructureSections
          (filterSections (jArrD (jgetD pd "sections" (.arr [])))) 1) := rfl

theorem processTree_abstract (pd : Json) :
    jgetD (processTree pd) "abstract" Json.null
      = Json.obj [("content",
          .str (extractAbstractSummary (jArrD (jgetD pd "sections" (.arr [])))).1),
        ("translated_content",
          .str (extractAbstractSummary (jArrD (jgetD pd "sections" (.arr [])))).2)] := rfl

theorem processTree_keymap_field (pd : Json) :
    jgetD (processTree pd) "key_map" Json.null
      = Json.obj (dictOfPairs ((keyMapOf pd).map (fun kv => (kv.1, Json.str kv.2)))) := rfl

theorem rsectionsOf_shapes (pd : Json) :
    ∀ s ∈ restructureSections (filterSections (jArrD (jgetD pd "sections" (.arr [])))) 1,
      SecShape s :=
  fun s hs => restructureSections_shape
    (sizeOf (filterSections (jArrD (jgetD pd "sections" (.arr [])))))
    (filterSections (jArrD (jgetD pd "sections" (.arr [])))) le_rfl 1 s hs

theorem keyMapOf_processTree (pd : Json) : keyMapOf (processTree pd) = keyMapOf pd := by
  unfold keyMapOf
  rw [show jgetD (processTree pd) "sections" (.arr [])
        = Json.arr (restructureSections
            (filterSections (jArrD (jgetD pd "sections" (.arr [])))) 1)
      from processTree_sections pd]
  rw [show jArrD (Json.arr (restructureSections
        (filterSections (jArrD (jgetD pd "sections" (.arr [])))) 1))
      = restructureSections (filterSections (jArrD (jgetD pd "sections" (.arr [])))) 1
      from rfl]
  rw [filterSections_of_shapes _ (rsectionsOf_shapes pd)]
  rw [restructureSections_idem
    (sizeOf (filterSections (jArrD (jgetD pd "sections" (.arr [])))))
    (filterSections (jArrD (jgetD pd "sections" (.arr [])))) 1 le_rfl]
  rw [show jgetD (processTree pd) "title" (.str "") = jgetD pd "title" (.str "")
      from processTree_title pd]

/-- C3 (amended).  Running the restructuring pipeline a second time on its own
output reproduces the first run's `title`, `translated_title`, `sections` and
`key_map` (the key map is idempotent), but the top-level abstract is reset to
empty strings: the second run re-extracts it from a section list that no
longer contains an `abstract`-typed section. -/
theorem C3_restructure_idem_amended (pd : Json) :
    jgetD (processTree (processTree pd)) "title" (.str "")
      = jgetD (processTree pd) "title" (.str "")
  ∧ jgetD (processTree (processTree pd)) "translated_title" (.str "")
      = jgetD (processTree pd) "translated_title" (.str "")
  ∧ jgetD (processTree (processTree pd)) "sections" (.arr [])
      = jgetD (processTree pd) "sections" (.arr [])
  ∧ jgetD (processTree (processTree pd)) "key_map" Json.null
      = jgetD (processTree pd) "key_map" Json.null
  ∧ keyMapOf (processTree pd) = keyMapOf pd
  ∧ jgetD (processTree (processTree pd)) "abstract" Json.null
      = Json.obj [("content", .str ""), ("translated_content", .str "")] := by
  refine ⟨processTree_title (processTree pd), processTree_translated_title (processTree pd),
    ?_, ?_, keyMapOf_processTree pd, ?_⟩
  · rw [processTree_sections (processTree pd), processTree_sections pd]
    rw [show jArrD (Json.arr (restructureSections
          (filterSections (jArrD (jgetD pd "sections" (.arr [])))) 1))
        = restructureSections (filterSections (jArrD (jgetD pd "sections" (.arr [])))) 1
        from rfl]
    rw [filterSections_of_shapes _ (rsectionsOf_shapes pd)]
    rw [restructureSections_idem
      (sizeOf (filterSections (jArrD (jgetD pd "sections" (.arr [])))))
      (filterSections (jArrD (jgetD pd "sections" (.arr [])))) 1 le_rfl]
  · rw [processTree_keymap_field (processTree pd), processTree_keymap_field pd,
      keyMapOf_processTree]
  · rw [processTree_abstract (processTree pd), processTree_sections pd]
    rw [show jArrD (Json.arr (restructureSections
          (filterSections (jArrD (jgetD pd "sections" (.arr [])))) 1))
        = restructureSections (filterSections (jArrD (jgetD pd "sections" (.arr [])))) 1
        from rfl]
    rw [extractAbstractSummary_of_shapes _ (rsectionsOf_shapes pd)]

/-- Counterexample to C3 as stated: on a paper whose abstract is nonempty, the
second run's top-level abstract content is `""` while the first run's is
`"AbsText"`, so `restructure (restructure tree)) ≠ restructure tree` — the
abstract is not preserved. -/
theorem C3_restructure_idem_counterexample :
    jStr (jgetD (jgetD (processTree (processTree c1Paper)) "abstract" Json.null)
        "content" (.str "")) = ""
  ∧ jStr (jgetD (jgetD (processTree c1Paper) "abstract" Json.null)
        "content" (.str "")) = "AbsText"
  ∧ processTree (processTree c1Paper) ≠ processTree c1Paper := by
  have hpf : processTree c1Paper = processTreeF 1000000 c1Paper :=
    (processTreeF_eq 1000000 c1Paper (by decide) (by decide)).symm
  have h1 : jStr (jgetD (jgetD (processTree (processTree c1Paper)) "abstract" Json.null)
      "content" (.str "")) = "" := by
    rw [hpf, ← processTreeF_eq 1000000 (processTreeF 1000000 c1Paper) (by decide) (by decide)]
    decide
  have h2 : jStr (jgetD (jgetD (processTree c1Paper) "abstract" Json.null)
      "content" (.str "")) = "AbsText" := by
    rw [hpf]
    decide
  refine ⟨h1, h2, fun heq => ?_⟩
  rw [heq, h2] at h1
  exact absurd h1 (by decide)

/-- Constructor parameters of `TilingProcessor.__init__`
(defaults 500, 2500, 3, 1). -/
structure TilingParams where
  minLength : Nat
  maxLength : Nat
  windowSize : Nat
  stepSize : Nat
deriving DecidableEq

/-- A content item as the tiling processor manipulates it: `item['type']`,
`item['content']` (the text payload — the only fields the processor reads),
and the `index`/`part` markers it assigns.  Fields the source never touches
(captions, sources, …) are elided. -/
structure TBlock where
  ty : String
  content : String
  index : Nat
  part : Nat
deriving DecidableEq

/-- The external numeric stack of `_texttiling`: `simF` abstracts
`cosine_similarity(embed(a), embed(b))` of two adjacent window texts and
`stdF` abstracts `np.std` of the positive depth scores (an irrational square
root in general); both come from the embedding model's floating-point world
and enter the model as parameters.  The mean and the depth-score formula are
rational and computed exactly. -/
structure TilingOracle where
  simF : String → String → ℚ
  stdF : List ℚ → ℚ

/-- The loop of `_merge_small_text_blocks`, with the buffer made explicit:
short text blocks accumulate, a long text block is absorbed and flushes, a
non-text block flushes and passes through, a trailing buffer is emitted. -/
def mergeLoop (P : TilingParams) : List TBlock → Option TBlock → List TBlock
  | [], none => []
  | [], some buf => [buf]
  | item :: rest, buf =>
    if item.ty = "text" then
      if item.content.length < P.minLength then
        match buf with
        | none => mergeLoop P rest (some item)
        | some b =>
          mergeLoop P rest (some { b with content := b.content ++ "\n\n" ++ item.content })
      else
        match buf with
        | some b =>
          { b with content := b.content ++ "\n\n" ++ item.content } :: mergeLoop P rest none
        | none => item :: mergeLoop P rest none
    else
      match buf with
      | some b => b :: item :: mergeLoop P rest none
      | none => item :: mergeLoop P rest none

/-- `_merge_small_text_blocks`. -/
def mergeSmallTextBlocks (P : TilingParams) (content : List TBlock) : List TBlock :=
  mergeLoop P content none

/-- Sentence-final punctuation of `_split_into_sentences`'s pattern. -/
def isSentEnd (c : Char) : Bool :=
  c = '。' || c = '！' || c = '？' || c = '?' || c = '!' || c = '.' || c = ';' || c = '；'

/-- Zero-width split after each sentence-final mark (`re.split` with a
lookbehind): pieces keep their final punctuation. -/
def splitAfterPunctGo : List Char → List Char → List String
  | [], acc => [String.mk acc.reverse]
  | c :: rest, acc =>
    if isSentEnd c then String.mk (acc.reverse ++ [c]) :: splitAfterPunctGo rest []
    else splitAfterPunctGo rest (c :: acc)

/-- Python whitespace for `str.strip()`. -/
def isPyWs (c : Char) : Bool :=
  c = ' ' || c = '\t' || c = '\n' || c = '\r' || c = '\x0b' || c = '\x0c'

/-- Python `s.strip()`. -/
def pyStripWs (s : String) : String :=
  String.mk (((s.data.dropWhile isPyWs).reverse.dropWhile isPyWs).reverse)

/-- `_split_into_sentences`: split after CJK/Latin sentence enders, strip each
piece, drop empties. -/
def splitIntoSentences (text : String) : List String :=
  ((splitAfterPunctGo text.data []).map pyStripWs).filter (fun s => s ≠ "")

/-- The two splitting regimes of `_process_content`. -/
inductive SplitMode where
  | sentence
  | delimiter
deriving DecidableEq

/-- `sep.join(xs)`. -/
def joinSep (sep : String) (xs : List String) : String := String.intercalate sep xs

/-- Window-text separator (`' '` for sentences, `'\n'` for delimiter parts). -/
def sepBlock : SplitMode → String
  | .sentence => " "
  | .delimiter => "\n"

/-- Separator for the `len(elements) < window_size + 2` early-return
(`' '` for sentences, `'\n\n'` for delimiter parts). -/
def sepCombined : SplitMode → String
  | .sentence => " "
  | .delimiter => "\n\n"

/-- Python `range(0, stop, step)` for `step ≥ 1` (a zero step raises in the
source and is unreachable from the constructor's defaults). -/
def pyRange (stop step : Nat) : List Nat :=
  if step = 0 then [] else (List.range ((stop + step - 1) / step)).map (· * step)

/-- The sliding windows of `_texttiling` joined into block texts. -/
def windowsOf (P : TilingParams) (mode : SplitMode) (elements : List String) : List String :=
  (pyRange (elements.length + 1 - P.windowSize) P.stepSize).map
    (fun i => joinSep (sepBlock mode) ((elements.drop i).take P.windowSize))

/-- Cosine similarities of adjacent blocks, through the oracle. -/
def adjacentSims (o : TilingOracle) : List String → List ℚ
  | a :: b :: rest => o.simF a b :: adjacentSims o (b :: rest)
  | _ => []

/-- The depth-score list: `[0]*len(elements)` updated at `i + window//2` for
interior `i` with `(sim[i-1] + sim[i+1] - 2*sim[i]) / 2`. -/
def depthScores (w n : Nat) (sims : List ℚ) : List ℚ :=
  (List.range n).map (fun j =>
    let i := j - w / 2
    if w / 2 + 1 ≤ j ∧ i + 2 ≤ sims.length then
      (sims.getD (i - 1) 0 + sims.getD (i + 1) 0 - 2 * sims.getD i 0) / 2
    else 0)

/-- `mean(positive depths) + 0.4 * std(positive depths)`, `0` when none are
positive; the mean is exact, the standard deviation comes from the oracle. -/
def thresholdOf (o : TilingOracle) (ds : List ℚ) : ℚ :=
  let pos := ds.filter (fun d => d > 0)
  if pos.isEmpty then 0
  else pos.sum / pos.length + (2 / 5) * o.stdF pos

/-- Indices whose depth score exceeds the threshold. -/
def potentialBoundaries (ds : List ℚ) (th : ℚ) : List Nat :=
  (ds.enum.filter (fun p => p.2 > th)).map Prod.fst

/-- The candidate-collecting loop of `_find_optimal_boundary`: walk forward
accumulating element lengths, record boundary indices whose running length is
inside `[min_length, max_length]`, stop once it exceeds `max_length`. -/
def collectGo (P : TilingParams) (bnd : List Nat) (ds : List ℚ) :
    List String → Nat → Nat → List (Nat × ℚ)
  | [], _, _ => []
  | e :: rest, i, curLen =>
    let curLen2 := curLen + e.length
    let cand := if P.minLength ≤ curLen2 ∧ curLen2 ≤ P.maxLength ∧ i ∈ bnd
      then [(i, ds.getD i 0)] else []
    if curLen2 > P.maxLength then cand
    else cand ++ collectGo P bnd ds rest (i + 1) curLen2

/-- Total length of `elements[start : i + 1]`. -/
def cumLen (elements : List String) (start i : Nat) : Nat :=
  (((elements.drop start).take (i + 1 - start)).map String.length).sum

/-- Python `min(..., key=f)` over a nonempty list: the first minimum. -/
def pyMinByQ (xs : List Nat) (f : Nat → ℚ) : Option Nat :=
  match xs with
  | [] => none
  | x :: rest => some (rest.foldl (fun best i => if f i < f best then i else best) x)

/-- Python `max(..., key=x[1])` over a nonempty list: the first maximum. -/
def pyMaxBySnd (xs : List (Nat × ℚ)) : Nat × ℚ :=
  match xs with
  | [] => (0, 0)
  | x :: rest => rest.foldl (fun best p => if p.2 > best.2 then p else best) x

/-- `_find_optimal_boundary`: prefer the deepest candidate boundary within the
length window; otherwise fall back to the position (among the next ten) whose
cumulative length is closest to the midpoint of `[min_length, max_length]`. -/
def findOptimalBoundary (P : TilingParams) (elements : List String) (bnd : List Nat)
    (ds : List ℚ) (start : Nat) : Nat :=
  let candidates := collectGo P bnd ds (elements.drop start) start 0
  if candidates.isEmpty then
    let target : ℚ := ((P.minLength : ℚ) + (P.maxLength : ℚ)) / 2
    let stop := min elements.length (start + 10)
    (pyMinByQ ((List.range (stop - start)).map (start + ·))
      (fun i => |((cumLen elements start i : ℚ)) - target|)).getD start
  else (pyMaxBySnd candidates).1

/-- The `while start < len(elements)` segmentation loop; the fuel argument is
`len(elements)`, enough because every boundary is at least `start`. -/
def segmentsGo (P : TilingParams) (elements : List String) (bnd : List Nat)
    (ds : List ℚ) (sep : String) : Nat → Nat → List String
  | 0, _ => []
  | fuel + 1, start =>
    if start < elements.length then
      let b := findOptimalBoundary P elements bnd ds start
      joinSep sep ((elements.drop start).take (b + 1 - start))
        :: segmentsGo P elements bnd ds sep fuel (b + 1)
    else []

/-- The final-segment merge: a last segment shorter than `min_length` is folded
into its predecessor when more than one segment exists. -/
def mergeLastIfSmall (P : TilingParams) (sep : String) (segments : List String) : List String :=
  match segments.reverse with
  | last :: prev :: rest =>
    if last.length < P.minLength then ((prev ++ sep ++ last) :: rest).reverse
    else segments
  | _ => segments

/-- `_texttiling`. -/
def texttiling (P : TilingParams) (o : TilingOracle) (elements : List String)
    (mode : SplitMode) : List String :=
  if elements.length < P.windowSize + 2 then
    [joinSep (sepCombined mode) elements]
  else
    let blocks := windowsOf P mode elements
    let sims := adjacentSims o blocks
    let ds := depthScores P.windowSize elements.length sims
    let th := thresholdOf o ds
    let bnd := potentialBoundaries ds th
    let segs := segmentsGo P elements bnd ds (sepBlock mode) elements.length 0
    mergeLastIfSmall P (sepBlock mode) segs

/-- The per-item body of `_process_content`'s second loop: an oversized text
block is split (delimiter mode when it contains `'\n\n'`, else sentence mode)
into parts numbered `0, 1, …` that keep the original index; every other block
passes through. -/
def splitItem (P : TilingParams) (o : TilingOracle) (item : TBlock) : List TBlock :=
  if item.ty = "text" ∧ item.content.length > P.maxLength then
    let parts := item.content.splitOn "\n\n"
    let em : List String × SplitMode :=
      if parts.length ≥ 2 then (parts, .delimiter)
      else (splitIntoSentences item.content, .sentence)
    (texttiling P o em.1 em.2).enum.map
      (fun q => { item with content := q.2, part := q.1 })
  else [item]

/-- `_process_content`: merge small text blocks, reassign `index`/`part`, then
split every oversized text block with TextTiling and number its parts. -/
def processContent (P : TilingParams) (o : TilingOracle) (content : List TBlock) :
    List TBlock :=
  let merged := mergeSmallTextBlocks P content
  let indexed := merged.enum.map (fun p => { p.2 with index := p.1, part := 0 })
  indexed.flatMap (splitItem P o)

/-- An oracle with constant similarity `0` and standard deviation `0`:
legitimate values (identical embeddings for all windows). -/
def trivOracle : TilingOracle := ⟨fun _ _ => 0, fun _ => 0⟩

/-- `n` copies of a character, for building blocks of a prescribed length. -/
def repC (c : Char) (n : Nat) : String := String.mk (List.replicate n c)

/-- Scenario A input: three consecutive text blocks of 50, 80 and 600
characters. -/
def c9Blocks : List TBlock :=
  [⟨"text", repC 'a' 50, 0, 0⟩, ⟨"text", repC 'b' 80, 0, 0⟩, ⟨"text", repC 'c' 600, 0, 0⟩]

set_option maxRecDepth 40000 in
/-- C9: the spec's Scenario A predicts a single 730-character block, but the
merge joins the three blocks with two `"\n\n"` separators, so the single
output block has 50 + 2 + 80 + 2 + 600 = 734 characters, not 730. -/
theorem C9_scenarioA_counterexample :
    (processContent ⟨500, 2500, 3, 1⟩ trivOracle c9Blocks).map
        (fun b => (b.ty, b.content.length, b.index, b.part))
      ≠ [("text", 730, 0, 0)] ∧
    (processContent ⟨500, 2500, 3, 1⟩ trivOracle c9Blocks).map
        (fun b => (b.ty, b.content.length, b.index, b.part))
      = [("text", 734, 0, 0)] := by
  refine ⟨?_, ?_⟩ <;> decide

set_option maxRecDepth 40000 in
/-- C9 (amended): with `min_length = 500`, `max_length = 2500`, Scenario A's
three text blocks of 50, 80 and 600 characters merge — for every embedding
oracle, since no splitting occurs — into exactly one text block of
50 + 2 + 80 + 2 + 600 = 734 characters (the buffer inserts `"\n\n"` between
merged blocks), with index 0 and part 0. -/
theorem C9_scenarioA_amended (o : TilingOracle) :
    (processContent ⟨500, 2500, 3, 1⟩ o c9Blocks).map
      (fun b => (b.ty, b.content.length, b.index, b.part)) = [("text", 734, 0, 0)] := rfl

/-- The position component of `enum` pairs is strictly increasing. -/
lemma enum_fst_pairwise {α : Type} (l : List α) :
    l.enum.Pairwise (fun q r => q.1 < r.1) := by
  have h := List.pairwise_lt_range l.length
  rw [← List.enum_map_fst l] at h
  exact List.pairwise_map.mp h

/-- Every block produced by `splitItem` carries the item's original index. -/
lemma splitItem_index (P : TilingParams) (o : TilingOracle) (item : TBlock) :
    ∀ b ∈ splitItem P o item, b.index = item.index := by
  intro b hb
  by_cases hc : item.ty = "text" ∧ item.content.length > P.maxLength
  · simp only [splitItem, if_pos hc, List.mem_map] at hb
    obtain ⟨q, _, rfl⟩ := hb
    rfl
  · simp only [splitItem, if_neg hc, List.mem_singleton] at hb
    subst hb
    rfl

/-- Within one `splitItem` group the index is constant and the part numbers
strictly increase. -/
lemma splitItem_parts_strict (P : TilingParams) (o : TilingOracle) (item : TBlock) :
    (splitItem P o item).Pairwise (fun a b => a.index = b.index ∧ a.part < b.part) := by
  by_cases hc : item.ty = "text" ∧ item.content.length > P.maxLength
  · simp only [splitItem, if_pos hc]
    rw [List.pairwise_map]
    exact (enum_fst_pairwise _).imp (fun h => ⟨rfl, h⟩)
  · simp only [splitItem, if_neg hc]
    simp

/-- The `(index, part)` pairs of `_process_content`'s output are strictly
increasing lexicographically — hence pairwise distinct and in document
order. -/
lemma processContent_order (P : TilingParams) (o : TilingOracle) (content : List TBlock) :
    ((processContent P o content).map (fun b => (b.index, b.part))).Pairwise
      (fun p q => p.1 < q.1 ∨ (p.1 = q.1 ∧ p.2 < q.2)) := by
  rw [List.pairwise_map]
  simp only [processContent]
  rw [List.pairwise_flatMap]
  constructor
  · intro item _
    exact (splitItem_parts_strict P o item).imp (fun h => Or.inr h)
  · rw [List.pairwise_map]
    exact (enum_fst_pairwise _).imp
      (fun {a b} hab x hx y hy =>
        Or.inl (by
          rw [splitItem_index P o _ x hx, splitItem_index P o _ y hy]
          exact hab))

/-- Every candidate recorded by `_find_optimal_boundary`'s collection loop
lies at or after the start position and its running segment length is within
`[min_length, max_length]`. -/
lemma collectGo_mem_bounds (P : TilingParams) (bnd : List Nat) (ds : List ℚ) :
    ∀ (es : List String) (i0 c0 : Nat) (p : Nat × ℚ), p ∈ collectGo P bnd ds es i0 c0 →
      i0 ≤ p.1 ∧
      P.minLength ≤ c0 + ((es.take (p.1 + 1 - i0)).map String.length).sum ∧
      c0 + ((es.take (p.1 + 1 - i0)).map String.length).sum ≤ P.maxLength := by
  intro es
  induction es with
  | nil =>
    intro i0 c0 p hp
    simp [collectGo] at hp
  | cons e rest ih =>
    intro i0 c0 p hp
    simp only [collectGo] at hp
    have hcand : ∀ hq : p ∈ (if P.minLength ≤ c0 + e.length ∧ c0 + e.length ≤ P.maxLength ∧ i0 ∈ bnd
        then [(i0, ds.getD i0 0)] else []),
        i0 ≤ p.1 ∧
        P.minLength ≤ c0 + (((e :: rest).take (p.1 + 1 - i0)).map String.length).sum ∧
        c0 + (((e :: rest).take (p.1 + 1 - i0)).map String.length).sum ≤ P.maxLength := by
      intro hq
      by_cases hc : P.minLength ≤ c0 + e.length ∧ c0 + e.length ≤ P.maxLength ∧ i0 ∈ bnd
      · rw [if_pos hc] at hq
        rw [List.mem_singleton] at hq
        subst hq
        have h1 : i0 + 1 - i0 = 1 := by omega
        rw [h1]
        simp only [List.take_succ_cons, List.take_zero, List.map_cons, List.map_nil,
          List.sum_cons, List.sum_nil]
        exact ⟨le_refl _, by omega, by omega⟩
      · rw [if_neg hc] at hq
        simp at hq
    by_cases hgt : c0 + e.length > P.maxLength
    · rw [if_pos hgt] at hp
      exact hcand hp
    · rw [if_neg hgt] at hp
      rcases List.mem_append.mp hp with hq | hrec
      · exact hcand hq
      · obtain ⟨h1, h2, h3⟩ := ih (i0 + 1) (c0 + e.length) p hrec
        have he : p.1 + 1 - i0 = (p.1 + 1 - (i0 + 1)) + 1 := by omega
        rw [he]
        simp only [List.take_succ_cons, List.map_cons, List.sum_cons]
        refine ⟨by omega, by omega, by omega⟩

/-- Python's first-wins `max(…, key=snd)` fold stays inside the list. -/
lemma foldl_pickMax_mem :
    ∀ (rest : List (Nat × ℚ)) (x : Nat × ℚ),
      rest.foldl (fun best p => if p.2 > best.2 then p else best) x ∈ x :: rest := by
  intro rest
  induction rest with
  | nil => intro x; simp
  | cons p rest ih =>
    intro x
    rw [List.foldl_cons]
    by_cases hc : p.2 > x.2
    · rw [if_pos hc]
      rcases List.mem_cons.mp (ih p) with h | h
      · rw [h]; exact List.mem_cons_of_mem x (List.mem_cons_self p rest)
      · exact List.mem_cons_of_mem x (List.mem_cons_of_mem p h)
    · rw [if_neg hc]
      rcases List.mem_cons.mp (ih x) with h | h
      · rw [h]; exact List.mem_cons_self x _
      · exact List.mem_cons_of_mem x (List.mem_cons_of_mem p h)

/-- On a nonempty candidate list `pyMaxBySnd` returns one of its members. -/
lemma pyMaxBySnd_mem (xs : List (Nat × ℚ)) (h : xs ≠ []) : pyMaxBySnd xs ∈ xs := by
  match xs with
  | [] => exact absurd rfl h
  | x :: rest => exact foldl_pickMax_mem rest x

/-- With at least one candidate, `_find_optimal_boundary` returns the deepest
candidate (no fallback). -/
lemma findOptimalBoundary_of_ne (P : TilingParams) (elements : List String)
    (bnd : List Nat) (ds : List ℚ) (start : Nat)
    (h : collectGo P bnd ds (elements.drop start) start 0 ≠ []) :
    findOptimalBoundary P elements bnd ds start =
      (pyMaxBySnd (collectGo P bnd ds (elements.drop start) start 0)).1 := by
  simp only [findOptimalBoundary]
  rw [if_neg (by simpa [List.isEmpty_iff] using h)]

/-- With at least one candidate, the chosen boundary's segment length is
within `[min_length, max_length]`. -/
lemma findOptimalBoundary_inBounds (P : TilingParams) (elements : List String)
    (bnd : List Nat) (ds : List ℚ) (start : Nat)
    (h : collectGo P bnd ds (elements.drop start) start 0 ≠ []) :
    P.minLength ≤ cumLen elements start (findOptimalBoundary P elements bnd ds start) ∧
    cumLen elements start (findOptimalBoundary P elements bnd ds start) ≤ P.maxLength := by
  have hb := collectGo_mem_bounds P bnd ds (elements.drop start) start 0 _ (pyMaxBySnd_mem _ h)
  rw [findOptimalBoundary_of_ne P elements bnd ds start h]
  constructor
  · have := hb.2.1
    simpa [cumLen] using this
  · have := hb.2.2
    simpa [cumLen] using this

/-- A single oversized text block: a 26-character paragraph followed by four
7-character paragraphs, under `min_length = 5`, `max_length = 25`. -/
def c2Content : String :=
  repC 'a' 26 ++ "\n\n" ++ repC 'b' 7 ++ "\n\n" ++ repC 'c' 7 ++ "\n\n" ++
    repC 'd' 7 ++ "\n\n" ++ repC 'e' 7

def c2Blocks : List TBlock := [⟨"text", c2Content, 0, 0⟩]

set_option maxRecDepth 40000 in
/-- C2: the length bounds fail.  With `min = 5`, `max = 25`, window 3, step 1
and equal similarities everywhere (no candidate boundaries), splitting a
62-character text block of paragraphs with lengths 26, 7, 7, 7, 7 yields
segments of lengths 26, 15 and 15: the FIRST output part is longer than
`max_length` even though it is not the final merged remainder, because the
fallback boundary ignores the upper bound and a chosen boundary's segment
also silently absorbs the `'\n'` join separators. -/
theorem C2_bounds_counterexample :
    (processContent ⟨5, 25, 3, 1⟩ trivOracle c2Blocks).map
        (fun b => (b.content.length, b.index, b.part)) =
      [(26, 0, 0), (15, 0, 1), (15, 0, 2)] ∧
    (⟨5, 25, 3, 1⟩ : TilingParams).maxLength < 26 := by
  constructor
  · with_unfolding_all decide
  · decide

/-- C2 (amended): (a) over the full output of `_process_content` the
`(index, part)` pairs are strictly increasing lexicographically — hence unique
and sorted in original document order — for every parameter set, oracle and
input; (b) the length bounds `min_length ≤ len ≤ max_length` hold only for
segments that end at a *candidate* boundary (the element sum, before join
separators): whenever `_find_optimal_boundary` has at least one candidate, the
boundary it picks satisfies them, but fallback boundaries (no candidate)
need not, so not every non-final output part obeys the bounds. -/
theorem C2_bounds_amended :
    (∀ (P : TilingParams) (o : TilingOracle) (content : List TBlock),
        ((processContent P o content).map (fun b => (b.index, b.part))).Pairwise
          (fun p q => p.1 < q.1 ∨ (p.1 = q.1 ∧ p.2 < q.2))) ∧
    (∀ (P : TilingParams) (elements : List String) (bnd : List Nat) (ds : List ℚ)
        (start : Nat),
        collectGo P bnd ds (elements.drop start) start 0 ≠ [] →
        P.minLength ≤ cumLen elements start (findOptimalBoundary P elements bnd ds start) ∧
        cumLen elements start (findOptimalBoundary P elements bnd ds start) ≤ P.maxLength) :=
  ⟨processContent_order, findOptimalBoundary_inBounds⟩

/-- Witness for the hypothesis of `C2_bounds_amended`: a concrete element list
with one candidate boundary whose chosen segment length lies in `[5, 25]`. -/
theorem C2_bounds_amended_witness :
    5 ≤ cumLen [repC 'a' 10] 0 (findOptimalBoundary ⟨5, 25, 3, 1⟩ [repC 'a' 10] [0] [1] 0) ∧
    cumLen [repC 'a' 10] 0 (findOptimalBoundary ⟨5, 25, 3, 1⟩ [repC 'a' 10] [0] [1] 0) ≤ 25 :=
  C2_bounds_amended.2 ⟨5, 25, 3, 1⟩ [repC 'a' 10] [0] [1] 0 (by with_unfolding_all decide)

/-- Python `s.startswith(pre)` on character lists. -/
def pyStartsWith : List Char → List Char → Bool
  | _, [] => true
  | [], _ :: _ => false
  | c :: cs, p :: ps => c = p && pyStartsWith cs ps

/-- Python substring containment `needle in hay` on character lists. -/
def containsSub : List Char → List Char → Bool
  | [], needle => needle.isEmpty
  | hay@(_ :: t), needle => pyStartsWith hay needle || containsSub t needle

/-- Python `len()` on a JSON value: defined for strings, lists and dicts,
`none` (`TypeError`) otherwise. -/
def pyLen : Json → Option Nat
  | .str s => some s.data.length
  | .arr xs => some xs.length
  | .obj fs => some fs.length
  | _ => none

/-- Python `a or b` on JSON values: `a` when truthy, else `b`. -/
def pyOr (a b : Json) : Json := if jTruthy a then a else b

/-- A similarity hit as `retrieve_with_context` consumes it: the chunk's
`metadata['Header']` (string in this pipeline; `none` when absent) and its
similarity score — a float from the embedding stack, carried as an exact
rational for the threshold comparisons. -/
structure RDoc where
  header : Option String
  score : ℚ
deriving DecidableEq

/-- The external state `retrieve_with_context` reads: `bool(paper_vector_paths)`
(`is_ready`), whether a usable vector store is obtained for the paper, the
`load_rag_tree` result (`.null` models Python `None`), and the outcome of
`similarity_search_with_score` (`.error` models a raised exception, caught by
the function's inner `try`). -/
structure REnv where
  hasVectorPaths : Bool
  hasVectorStore : Bool
  ragTree : Json
  searchResult : Except Unit (List RDoc)

/-- The scroll-locator dict built by `_create_scroll_info`
(keys `is_title` / `zh_content` / `en_content` / `node_type`). -/
structure ScrollInfo where
  isTitle : Bool
  zhContent : Json
  enContent : Json
  nodeType : Json

/-- `_create_scroll_info` (its `rag_tree` argument is never read).  `.error`
models the `TypeError`/`AttributeError` of `'type' not in node` / `node.get`
on a non-dict node, which propagates to the caller's outer `except`. -/
def createScrollInfo (path : String) (node : Json) : Except Unit ScrollInfo :=
  match node with
  | .obj _ =>
    let base : ScrollInfo :=
      { isTitle := false, zhContent := .str "", enContent := .str "",
        nodeType := jgetD node "type" (.str "unknown") }
    if (jget node "type").isNone && pyStartsWith path.data "/sections/".data then
      .ok { base with
        isTitle := true,
        enContent := (jget node "title").getD (.str ""),
        zhContent := (jget node "translated_title").getD (.str "") }
    else if isType node "text" then
      .ok { base with
        enContent := jgetD node "content" (.str ""),
        zhContent := jgetD node "translated_content" (.str "") }
    else if isType node "figure" || isType node "table" then
      .ok { base with
        enContent := jgetD node "caption" (.str ""),
        zhContent := jgetD node "translated_caption" (.str "") }
    else if isType node "formula" then
      .ok { base with
        enContent := jgetD node "content" (.str ""),
        zhContent := jgetD node "content" (.str "") }
    else .ok base
  | _ => .error ()

/-- One traversal step of `_get_node_from_path`: an all-digit part is
converted with `int()` and so can only index a list (a JSON-decoded dict has
string keys, which an `int` never matches); any other part can only be a dict
key. -/
def rStep (node : Json) (part : String) : Option Json :=
  if pyIsDigit part then
    match node, pyInt part with
    | .arr xs, some k => if h : k < xs.length then some xs[k] else none
    | _, _ => none
  else
    match node with
    | .obj fs => lookupField fs part
    | _ => none

/-- The traversal loop of `_get_node_from_path`; a failed step returns `{}`. -/
def rGetNodeGo : Json → List String → Json
  | node, [] => node
  | node, part :: rest =>
    match rStep node part with
    | some n => rGetNodeGo n rest
    | none => Json.obj []

/-- `RagRetriever._get_node_from_path`: remove one leading `/`, split on `/`,
walk the tree; `{}` on any failure. -/
def rGetNode (tree : Json) (path : String) : Json :=
  let cs := if path.data.head? = some '/' then path.data.tail else path.data
  rGetNodeGo tree ((splitSlash cs).map String.mk)

/-- The previous-sibling check of `_add_adjacent_formulas`: when the current
content index is positive, look at `base/<ci-1>`; a formula-typed dict is
inserted; a non-dict previous node makes `prev_node.get` raise, which the
function's own `try` catches — the `true` flag records that the rest of the
body is skipped with the state kept so far. -/
def addAdjPrev (tree : Json) (base : String) (ci : Nat)
    (sections : List (String × Json)) : List (String × Json) × Bool :=
  if 0 < ci then
    match rGetNode tree (base ++ "/" ++ natRepr (ci - 1)) with
    | .obj fs =>
      (if isType (.obj fs) "formula"
       then dictInsert sections (base ++ "/" ++ natRepr (ci - 1)) (.obj fs)
       else sections, false)
    | _ => (sections, true)
  else (sections, false)

/-- The next-sibling check: skipped when the previous check aborted; a truthy
formula-typed dict at `base/<ci+1>` is inserted (a truthy non-dict raises at
`.get`, again caught with the state kept). -/
def addAdjNext (tree : Json) (base : String) (ci : Nat)
    (st : List (String × Json) × Bool) : List (String × Json) :=
  if st.2 then st.1
  else
    match rGetNode tree (base ++ "/" ++ natRepr (ci + 1)) with
    | .obj fs =>
      if jTruthy (.obj fs) then
        if isType (.obj fs) "formula"
        then dictInsert st.1 (base ++ "/" ++ natRepr (ci + 1)) (.obj fs)
        else st.1
      else st.1
    | _ => st.1

def addAdjCore (tree : Json) (base : String) (ci : Nat)
    (sections : List (String × Json)) : List (String × Json) :=
  addAdjNext tree base ci (addAdjPrev tree base ci sections)

/-- The path-shape dispatch of `_add_adjacent_formulas`: only
`…/content/<int>` paths of at least five components are processed; a final
component rejected by `int()` aborts before any insertion. -/
def addAdjFromParts (tree : Json) (parts : List String)
    (sections : List (String × Json)) : List (String × Json) :=
  if parts.length ≥ 5 ∧ parts.getD (parts.length - 2) "" = "content" then
    match pyInt (parts.getD (parts.length - 1) "") with
    | none => sections
    | some ci =>
      addAdjCore tree (String.intercalate "/" (parts.take (parts.length - 1))) ci sections
  else sections

/-- `_add_adjacent_formulas`.  Its own `try` swallows failures (see the helper
parts above).  Path components here are the canonical decimal indices produced
by the key map, on which `pyInt` models `int()`. -/
def addAdjacentFormulas (tree : Json) (path : String) (sections : List (String × Json)) :
    List (String × Json) :=
  if path = "" ∨ ¬ pyStartsWith path.data "/".data then sections
  else addAdjFromParts tree ((splitSlash path.data).map String.mk) sections

/-- `_build_section_title`: for `sections/<i>[/children/<j>/…]` paths the
(child-)section title, preferring the translated one; otherwise — and on any
exception its `try` catches, e.g. a non-dict node where `.get` is called or a
non-sequence where `len()`/indexing is applied — the fallback `章节 <path>`.
A JSON-decoded dict has string keys, so integer indexing of a dict raises. -/
def buildSectionTitle (tree : Json) (path : String) : String :=
  let p := if path.data.head? = some '/' then String.mk path.data.tail else path
  let parts := (splitSlash p.data).map String.mk
  let fallback := "章节 " ++ p
  if parts.length ≥ 2 ∧ parts.getD 0 "" = "sections" then
    match pyInt (parts.getD 1 "") with
    | none => fallback
    | some si =>
      match jget tree "sections" with
      | none => fallback
      | some sv =>
        match pyLen sv with
        | none => fallback
        | some n =>
          if hsi : si < n then
            match sv with
            | .arr secs =>
              if hs : si < secs.length then
                match secs[si] with
                | .obj sfs =>
                  let sec := Json.obj sfs
                  let title := pyOr (jgetD sec "translated_title" (.str ""))
                    (jgetD sec "title" (.str ""))
                  if parts.length ≥ 4 ∧ parts.getD 2 "" = "children" then
                    match pyInt (parts.getD 3 "") with
                    | none => fallback
                    | some ki =>
                      match jget sec "children" with
                      | none => pyStr title
                      | some kv =>
                        match pyLen kv with
                        | none => fallback
                        | some m =>
                          if hki : ki < m then
                            match kv with
                            | .arr kids =>
                              if hk : ki < kids.length then
                                match kids[ki] with
                                | .obj kfs =>
                                  let child := Json.obj kfs
                                  let childTitle := pyOr
                                    (jgetD child "translated_title" (.str ""))
                                    (jgetD child "title" (.str ""))
                                  if jTruthy childTitle then
                                    pyStr title ++ " > " ++ pyStr childTitle
                                  else pyStr title
                                | _ => fallback
                              else pyStr title
                            | _ => fallback
                          else pyStr title
                  else pyStr title
                | _ => fallback
              else fallback
            | _ => fallback
          else fallback
  else fallback

/-- The per-node content lines of the rendering loop (lines appended after the
`## <title>` header).  Appended values are JSON values: a non-string survives
until the final `"\n\n".join`, which then raises.  `.error` models the
`AttributeError` of `node.get` on a non-dict node. -/
def renderNode (node : Json) : Except Unit (List Json) :=
  match node with
  | .obj _ =>
    if isType node "text" then
      .ok [pyOr (jgetD node "translated_content" (.str "")) (jgetD node "content" (.str ""))]
    else if isType node "formula" then
      .ok ([jgetD node "content" (.str "")] ++
        (match jget node "formula_analysis" with
         | some v => [Json.str ("公式解释: " ++ pyStr v)]
         | none => []))
    else if isType node "figure" then
      let caption := pyOr (jgetD node "translated_caption" (.str ""))
        (jgetD node "caption" (.str ""))
      .ok (if jTruthy caption then [Json.str ("图片: " ++ pyStr caption)] else [])
    else if isType node "table" then
      let content := jgetD node "content" (.str "")
      let caption := pyOr (jgetD node "translated_caption" (.str ""))
        (jgetD node "caption" (.str ""))
      .ok ((if jTruthy content then [content] else []) ++
           (if jTruthy caption then [Json.str ("表格: " ++ pyStr caption)] else []))
    else
      match jget node "summary" with
      | some v => .ok [Json.str ("摘要: " ++ pyStr v)]
      | none => .ok []
  | _ => .error ()

/-- Python `sorted()` on the retrieved paths: the unique `≤`-sorted
permutation (string comparison is lexicographic by code point in both
languages). -/
def pySorted (l : List String) : List String := l.insertionSort (· ≤ ·)

/-- The rendering loop over the sorted paths: a `## <title>` line followed by
the node's content lines; every looked-up key was inserted by the build loop,
so the lookup never misses (`.null` is an unreachable placeholder). -/
def renderLoop (tree : Json) (retrieved : List (String × Json)) :
    List String → Except Unit (List Json)
  | [] => .ok []
  | path :: rest => do
    let node := (lookupField retrieved path).getD .null
    let parts ← renderNode node
    let restParts ← renderLoop tree retrieved rest
    .ok (Json.str ("\n## " ++ buildSectionTitle tree path) :: parts ++ restParts)

/-- `"\n\n".join(result_parts)`: raises (`TypeError`) unless every part is a
string. -/
def pyJoinStrs (sep : String) (parts : List Json) : Except Unit String :=
  if parts.all (fun p => match p with | .str _ => true | _ => false) then
    .ok (String.intercalate sep (parts.map jStr))
  else .error ()

/-- The full result string: the fixed preamble, then each retrieved node in
sorted-path order. -/
def renderAll (tree : Json) (retrieved : List (String × Json)) : Except Unit String := do
  let parts ← renderLoop tree retrieved (pySorted (retrieved.map Prod.fst))
  pyJoinStrs "\n\n" (Json.str "以下是论文中与您问题最相关的内容:" :: parts)

/-- The score filter: keep hits with score strictly above `0.6`. -/
def survivingDocs (docs : List RDoc) : List RDoc :=
  docs.filter (fun d => d.score > 3/5)

/-- The `section_paths` loop: each surviving doc with a `Header` key present
in the key map contributes that key's path value.  `.error` models the raise
of `header_key in <non-dict>` membership followed by indexing (`in` on a
string is substring containment, on a list membership; indexing either with a
string key raises). -/
def collectSectionPaths : List RDoc → Json → Except Unit (List Json)
  | [], _ => .ok []
  | d :: rest, keyMap =>
    match d.header with
    | none => collectSectionPaths rest keyMap
    | some hk =>
      match keyMap with
      | .obj fs =>
        match lookupField fs hk with
        | some p => do
          let r ← collectSectionPaths rest keyMap
          .ok (p :: r)
        | none => collectSectionPaths rest keyMap
      | .str s =>
        if containsSub s.data hk.data then .error () else collectSectionPaths rest keyMap
      | .arr xs =>
        if xs.any (fun x => match x with | .str t => t = hk | _ => false) then .error ()
        else collectSectionPaths rest keyMap
      | _ => .error ()

/-- The `retrieved_sections` build loop: resolve each path, keep truthy nodes
keyed by path (deduplicating repeats), and pull in adjacent formulas.  A
non-string path makes `_get_node_from_path` raise internally, which its own
`try` turns into the falsy `{}` — such paths are skipped and never become
keys. -/
def buildRetrieved (tree : Json) : List Json → List (String × Json) → List (String × Json)
  | [], acc => acc
  | p :: rest, acc =>
    match p with
    | .str path =>
      let node := rGetNode tree path
      if jTruthy node then
        buildRetrieved tree rest (addAdjacentFormulas tree path (dictInsert acc path node))
      else buildRetrieved tree rest acc
    | _ => buildRetrieved tree rest acc

def retrievedSectionsOf (tree : Json) (paths : List Json) : List (String × Json) :=
  buildRetrieved tree paths []

/-- The scroll-locator decision: only when the first surviving hit scores
above `0.65` and its path resolves to a truthy retrieved node is
`_create_scroll_info` called.  A list- or dict-valued first path is an
unhashable `dict.get` key and raises; other non-string first paths miss. -/
def scrollInfoOf (paths : List Json) (retrieved : List (String × Json))
    (firstScore : ℚ) : Except Unit (Option ScrollInfo) :=
  if firstScore > 13/20 ∧ ¬ paths.isEmpty then
    match paths.headD .null with
    | .str p =>
      match lookupField retrieved p with
      | some n =>
        if jTruthy n then (createScrollInfo p n).map some else .ok none
      | none => .ok none
    | .arr _ => .error ()
    | .obj _ => .error ()
    | _ => .ok none
  else .ok none

/-- The body of `retrieve_with_context`'s outer `try` (lines 303–406): a
`.error` is an exception reaching the outer `except`, an `.ok ("", none)` is
one of the early returns.  `key_map` is read with `.get` only on a dict tree
(a truthy non-dict tree raises there). -/
def retrieveCore (env : REnv) : Except Unit (String × Option ScrollInfo) :=
  if ¬ jTruthy env.ragTree then .ok ("", none)
  else
    match env.searchResult with
    | .error _ => .ok ("", none)
    | .ok docs =>
      let filtered := survivingDocs docs
      if filtered.isEmpty then .ok ("", none)
      else do
        let keyMap ← match env.ragTree with
          | .obj _ => Except.ok (jgetD env.ragTree "key_map" (.obj []))
          | _ => Except.error ()
        let sectionPaths ← collectSectionPaths filtered keyMap
        if sectionPaths.isEmpty then pure ("", none)
        else do
          let retrieved := retrievedSectionsOf env.ragTree sectionPaths
          let firstScore := (filtered.headD ⟨none, 0⟩).score
          let scroll ← scrollInfoOf sectionPaths retrieved firstScore
          let rendered ← renderAll env.ragTree retrieved
          pure (rendered, scroll)

/-- `RagRetriever.retrieve_with_context`: the pre-`try` guards (index not
ready, no vector store) return `("", None)` directly; everything else runs
inside the outer `try`, whose `except` also returns `("", None)`. -/
def retrieveWithContext (env : REnv) : String × Option ScrollInfo :=
  if !env.hasVectorPaths then ("", none)
  else if !env.hasVectorStore then ("", none)
  else
    match retrieveCore env with
    | .ok r => r
    | .error _ => ("", none)

/-- A small well-formed rag tree with two sections, one text block each, and a
key map sending header `HA` to the first block and `HB` to the second. -/
def rItemA : Json := .obj [("type", .str "text"), ("content", .str "AText"), ("translated_content", .str "")]

def rItemB : Json := .obj [("type", .str "text"), ("content", .str "BText")]

def rTree : Json := .obj [
  ("title", .str "T"),
  ("sections", .arr [
    .obj [("title", .str "SecA"), ("content", .arr [rItemA])],
    .obj [("title", .str "SecB"), ("content", .arr [rItemB])]]),
  ("key_map", .obj [("HA", .str "/sections/0/content/0"), ("HB", .str "/sections/1/content/0")])]

/-- Retrieval attempted before the index is loaded. -/
def c8NotReadyEnv : REnv := ⟨false, true, rTree, .ok [⟨some "HA", 7/10⟩]⟩

/-- A ready index whose only hit scores 0.5 and is filtered out. -/
def c8NoHitsEnv : REnv := ⟨true, true, rTree, .ok [⟨some "HA", 1/2⟩]⟩

/-- C8: the "index not ready" outcome and the "no hit survives the score
filter" outcome are the *same* value `("", None)` — a caller cannot
distinguish them, contrary to the claim. -/
theorem C8_distinct_counterexample :
    retrieveWithContext c8NotReadyEnv = ("", none) ∧
    retrieveWithContext c8NoHitsEnv = ("", none) ∧
    retrieveWithContext c8NotReadyEnv = retrieveWithContext c8NoHitsEnv := by
  refine ⟨rfl, by with_unfolding_all rfl, ?_⟩
  rw [show retrieveWithContext c8NoHitsEnv = ("", none) from by with_unfolding_all rfl]
  rfl

/-- C8 (amended): when the index is not ready `retrieve_with_context` does
fail fast, returning `("", None)` without touching the store — but this is
exactly the value also returned when no hit survives score filtering, so the
two conditions are not observably different. -/
theorem C8_notready_amended :
    (∀ env : REnv, env.hasVectorPaths = false → retrieveWithContext env = ("", none)) ∧
    (∀ (env : REnv) (docs : List RDoc), env.searchResult = .ok docs →
        survivingDocs docs = [] → retrieveWithContext env = ("", none)) := by
  constructor
  · intro env h
    simp [retrieveWithContext, h]
  · rintro ⟨hvp, hvs, tree, sr⟩ docs hs hf
    simp only at hs
    subst hs
    cases hvp
    · simp [retrieveWithContext]
    · cases hvs
      · simp [retrieveWithContext]
      · by_cases ht : jTruthy tree
        · simp [retrieveWithContext, retrieveCore, ht, hf]
        · simp [retrieveWithContext, retrieveCore, ht]

/-- Witness for `C8_notready_amended` at concrete environments. -/
theorem C8_notready_amended_witness :
    retrieveWithContext ⟨false, false, .null, .ok []⟩ = ("", none) ∧
    retrieveWithContext ⟨true, true, .null, .ok [⟨some "H", 1/2⟩]⟩ = ("", none) :=
  ⟨C8_notready_amended.1 _ rfl,
   C8_notready_amended.2 _ [⟨some "H", 1/2⟩] rfl (by with_unfolding_all decide)⟩

/-- A tree whose key map points at a section that does not exist: every path
lookup fails. -/
def c10Tree : Json := .obj [
  ("sections", .arr []),
  ("key_map", .obj [("HA", .str "/sections/9/content/0")])]

def c10Env : REnv := ⟨true, true, c10Tree, .ok [⟨some "HA", 7/10⟩]⟩

/-- C10: a failed path lookup does NOT yield `("", None)`: when every key-map
path fails to resolve, the function still returns the non-empty preamble
`以下是论文中与您问题最相关的内容:` paired with `None`. -/
theorem C10_totality_counterexample :
    (retrieveWithContext c10Env).1 = "以下是论文中与您问题最相关的内容:" ∧
    (retrieveWithContext c10Env).2 = none ∧
    (retrieveWithContext c10Env).1 ≠ "" := by
  refine ⟨by with_unfolding_all decide, by with_unfolding_all rfl, by with_unfolding_all decide⟩

/-- C10 (amended): `retrieve_with_context` indeed never propagates an
exception — a missing vector store, a falsy rag tree, a similarity-search
exception, and any exception inside the structured-retrieval body all produce
`("", None)`.  Failed path lookups, however, are not an error: they are
silently skipped, and if all lookups fail, the result is the bare preamble
with `None`, not `("", None)`. -/
theorem C10_totality_amended :
    (∀ env : REnv, env.hasVectorStore = false → retrieveWithContext env = ("", none)) ∧
    (∀ env : REnv, jTruthy env.ragTree = false → retrieveWithContext env = ("", none)) ∧
    (∀ (env : REnv) (e : Unit), env.searchResult = .error e → retrieveWithContext env = ("", none)) ∧
    (∀ (env : REnv) (e : Unit), retrieveCore env = .error e → retrieveWithContext env = ("", none)) := by
  refine ⟨?_, ?_, ?_, ?_⟩
  · rintro ⟨hvp, hvs, tree, sr⟩ h
    simp only at h
    subst h
    cases hvp <;> simp [retrieveWithContext]
  · rintro ⟨hvp, hvs, tree, sr⟩ h
    simp only at h
    cases hvp <;> cases hvs <;> simp [retrieveWithContext, retrieveCore, h]
  · rintro ⟨hvp, hvs, tree, sr⟩ e h
    simp only at h
    subst h
    cases hvp <;> cases hvs <;> simp [retrieveWithContext, retrieveCore]
  · rintro ⟨hvp, hvs, tree, sr⟩ e h
    cases hvp <;> cases hvs <;> simp [retrieveWithContext, h]

/-- Witness for `C10_totality_amended` at concrete environments. -/
theorem C10_totality_amended_witness :
    retrieveWithContext ⟨true, false, .null, .ok []⟩ = ("", none) ∧
    retrieveWithContext ⟨true, true, .null, .ok []⟩ = ("", none) ∧
    retrieveWithContext ⟨true, true, .obj [("a", .str "b")], .error ()⟩ = ("", none) ∧
    retrieveWithContext ⟨true, true, .str "x", .ok [⟨some "H", 7/10⟩]⟩ = ("", none) :=
  ⟨C10_totality_amended.1 _ rfl,
   C10_totality_amended.2.1 _ rfl,
   C10_totality_amended.2.2.1 _ () rfl,
   C10_totality_amended.2.2.2 _ () (by with_unfolding_all rfl)⟩

/-- Observable content of a scroll locator (string-valued fields projected for
comparison). -/
def scrollData : Option ScrollInfo → Option (Bool × String × String × String) :=
  Option.map (fun s => (s.isTitle, jStr s.zhContent, jStr s.enContent, jStr s.nodeType))

/-- Scenario C: one hit at 0.7 (header `HA`) and one at 0.55 (header `HB`). -/
def c4Env : REnv := ⟨true, true, rTree, .ok [⟨some "HA", 7/10⟩, ⟨some "HB", 11/20⟩]⟩

/-- C4: the score filter keeps exactly the hits scoring above 0.6, and in
Scenario C the result renders only the 0.7 hit's node (`AText` under `SecA`)
with a scroll locator derived from that node alone — nothing from the 0.55
hit (`BText`) appears. -/
theorem C4_score_filter :
    (∀ (docs : List RDoc) (d : RDoc), d ∈ survivingDocs docs ↔ d ∈ docs ∧ d.score > 3/5) ∧
    (retrieveWithContext c4Env).1 = "以下是论文中与您问题最相关的内容:\n\n\n## SecA\n\nAText" ∧
    scrollData (retrieveWithContext c4Env).2 = some (false, "", "AText", "text") := by
  refine ⟨?_, by with_unfolding_all decide, ?_⟩
  · intro docs d
    simp [survivingDocs, List.mem_filter]
  · rw [show (retrieveWithContext c4Env).2 = some ⟨false, .str "", .str "AText", .str "text"⟩
      from by with_unfolding_all rfl]
    rfl

/-- Eleven sections `S0 … S10`, each with a summary, and headers mapped to
sections 2 and 10. -/
def mkSec (i : Nat) : Json :=
  .obj [("title", .str ("S" ++ natRepr i)), ("summary", .str ("sum" ++ natRepr i))]

def c7Tree : Json := .obj [
  ("sections", .arr ((List.range 11).map mkSec)),
  ("key_map", .obj [("HA", .str "/sections/2"), ("HB", .str "/sections/10")])]

def c7Env : REnv := ⟨true, true, c7Tree, .ok [⟨some "HA", 7/10⟩, ⟨some "HB", 69/100⟩]⟩

/-- C7: path sorting is plain string sorting, which is NOT document order once
an index reaches two digits: `"/sections/10" < "/sections/2"`
lexicographically, so section 10's content is rendered before section 2's
although section 2 comes earlier in the document. -/
theorem C7_order_counterexample :
    pySorted ((retrievedSectionsOf c7Tree [.str "/sections/2", .str "/sections/10"]).map Prod.fst)
      = ["/sections/10", "/sections/2"] ∧
    (retrieveWithContext c7Env).1 =
      "以下是论文中与您问题最相关的内容:\n\n\n## S10\n\n摘要: sum10\n\n\n## S2\n\n摘要: sum2" ∧
    (2 : Nat) < 10 := by
  refine ⟨by with_unfolding_all decide, by with_unfolding_all decide, by decide⟩

/-- C7 (amended): the resolved nodes are rendered sorted by structural path in
*lexicographic string order* (a sorted permutation of the retrieved keys);
this coincides with document order only while sibling numeric components have
equally many digits. -/
theorem C7_order_amended :
    (∀ l : List String, (pySorted l).Pairwise (fun a b : String => a ≤ b)) ∧
    (∀ l : List String, (pySorted l).Perm l) :=
  ⟨fun l => List.sorted_insertionSort _ l, fun l => List.perm_insertionSort _ l⟩

lemma splitSlash_cons_slash (xs : List Char) : splitSlash ('/' :: xs) = [] :: splitSlash xs := by
  simp [splitSlash]

/-- The canonical base path of section `k`'s content list. -/
def contBase (k : Nat) : String := "/sections/" ++ natRepr k ++ "/content"

/-- The canonical path of content item `ci` of section `k`. -/
def contPath (k ci : Nat) : String := contBase k ++ "/" ++ natRepr ci

lemma stringExt {s t : String} (h : s.data = t.data) : s = t := by
  have h2 := congrArg String.mk h
  rwa [stringMk_data, stringMk_data] at h2

lemma contPath_data (k ci : Nat) : (contPath k ci).data
    = '/' :: ("sections".data ++ '/' :: (natDigits k ++ '/' :: ("content".data ++ '/' :: natDigits ci))) := by
  simp [contPath, contBase, natRepr]

lemma contPath_parts (k ci : Nat) :
    (splitSlash (contPath k ci).data).map String.mk
      = ["", "sections", natRepr k, "content", natRepr ci] := by
  rw [contPath_data, splitSlash_cons_slash,
    splitSlash_append_sep "sections".data, splitSlash_append_sep (natDigits k),
    splitSlash_append_sep "content".data,
    splitSlash_no_slash "sections".data (by decide),
    splitSlash_no_slash (natDigits k) (natDigits_no_slash k),
    splitSlash_no_slash "content".data (by decide),
    splitSlash_no_slash (natDigits ci) (natDigits_no_slash ci)]
  simp [natRepr]

lemma intercalate_contBase (k : Nat) :
    String.intercalate "/" ["", "sections", natRepr k, "content"] = contBase k := by
  have h1 : String.intercalate "/" ["", "sections", natRepr k, "content"]
      = "" ++ "/" ++ "sections" ++ "/" ++ natRepr k ++ "/" ++ "content" := rfl
  rw [h1]
  apply stringExt
  simp [contBase, natRepr]

lemma contPath_ne_empty (k ci : Nat) : contPath k ci ≠ "" := by
  intro he
  have h2 := congrArg String.data he
  rw [contPath_data] at h2
  simp at h2

lemma contPath_startsWith (k ci : Nat) :
    pyStartsWith (contPath k ci).data "/".data = true := by
  rw [contPath_data, show "/".data = ['/'] from rfl]
  simp [pyStartsWith]

lemma addAdjacentFormulas_contPath (tree : Json) (k ci : Nat) (secs : List (String × Json)) :
    addAdjacentFormulas tree (contPath k ci) secs = addAdjCore tree (contBase k) ci secs := by
  have hguard : ¬ (contPath k ci = "" ∨ ¬ pyStartsWith (contPath k ci).data "/".data = true) := by
    simp [contPath_ne_empty k ci, contPath_startsWith k ci]
  unfold addAdjacentFormulas
  rw [if_neg hguard, contPath_parts]
  unfold addAdjFromParts
  have hlen : (["", "sections", natRepr k, "content", natRepr ci] : List String).length = 5 := by
    simp
  rw [hlen]
  rw [if_pos (And.intro (by omega) (by simp [List.getD]))]
  have hget4 : (["", "sections", natRepr k, "content", natRepr ci] : List String).getD (5 - 1) ""
      = natRepr ci := by simp [List.getD]
  rw [hget4, pyInt_natRepr]
  have htake : (["", "sections", natRepr k, "content", natRepr ci] : List String).take (5 - 1)
      = ["", "sections", natRepr k, "content"] := by simp
  rw [htake, intercalate_contBase]

lemma lookupField_dictInsert_self (d : List (String × Json)) (k : String) (v : Json) :
    lookupField (dictInsert d k v) k = some v := by
  induction d with
  | nil => simp [dictInsert, lookupField]
  | cons kv rest ih =>
    by_cases hk : kv.1 = k
    · simp [dictInsert, hk, lookupField]
    · simp [dictInsert, hk, lookupField, ih]

lemma lookupField_dictInsert_other (d : List (String × Json)) (k' k : String) (v : Json)
    (h : k' ≠ k) : lookupField (dictInsert d k' v) k = lookupField d k := by
  induction d with
  | nil => simp [dictInsert, lookupField, h]
  | cons kv rest ih =>
    by_cases hk : kv.1 = k'
    · simp [dictInsert, hk, lookupField, h]
    · simp [dictInsert, hk, lookupField, ih]

lemma mem_fst_dictInsert (d : List (String × Json)) (k a : String) (v : Json) :
    a ∈ (dictInsert d k v).map Prod.fst → a ∈ d.map Prod.fst ∨ a = k := by
  induction d with
  | nil =>
    intro h
    simp only [dictInsert, List.map_cons, List.map_nil, List.mem_cons,
      List.not_mem_nil, or_false] at h
    exact Or.inr h
  | cons kv rest ih =>
    intro h
    by_cases hk : kv.1 = k
    · simp only [dictInsert, if_pos hk, List.map_cons, List.mem_cons] at h
      rcases h with h | h
      · exact Or.inl (by simp only [List.map_cons, List.mem_cons]; exact Or.inl h)
      · exact Or.inl (by simp only [List.map_cons, List.mem_cons]; exact Or.inr h)
    · simp only [dictInsert, if_neg hk, List.map_cons, List.mem_cons] at h
      rcases h with h | h
      · exact Or.inl (by simp only [List.map_cons, List.mem_cons]; exact Or.inl h)
      · rcases ih h with h2 | h2
        · exact Or.inl (by simp only [List.map_cons, List.mem_cons]; exact Or.inr h2)
        · exact Or.inr h2

lemma dictInsert_fst_nodup (d : List (String × Json)) (k : String) (v : Json)
    (h : (d.map Prod.fst).Nodup) : ((dictInsert d k v).map Prod.fst).Nodup := by
  induction d with
  | nil => simp [dictInsert]
  | cons kv rest ih =>
    simp only [List.map_cons, List.nodup_cons] at h
    by_cases hk : kv.1 = k
    · simp only [dictInsert, if_pos hk, List.map_cons, List.nodup_cons]
      exact ⟨h.1, h.2⟩
    · simp only [dictInsert, if_neg hk, List.map_cons, List.nodup_cons]
      refine ⟨fun hmem => ?_, ih h.2⟩
      rcases mem_fst_dictInsert rest k kv.1 v hmem with h2 | h2
      · exact h.1 h2
      · exact hk h2

lemma isType_obj {j : Json} {t : String} (h : isType j t = true) :
    ∃ fs, j = Json.obj fs ∧ fs ≠ [] := by
  cases j with
  | obj fs =>
    refine ⟨fs, rfl, ?_⟩
    intro hfs
    subst hfs
    simp [isType, jget, lookupField] at h
  | null => simp [isType, jget] at h
  | bool b => simp [isType, jget] at h
  | num n => simp [isType, jget] at h
  | str s => simp [isType, jget] at h
  | arr xs => simp [isType, jget] at h

lemma appendNatRepr_inj (base : String) (a b : Nat)
    (h : base ++ "/" ++ natRepr a = base ++ "/" ++ natRepr b) : a = b := by
  have hd := congrArg String.data h
  simp only [natRepr] at hd
  simp at hd
  have h4 : parseDigits (natDigits a) = parseDigits (natDigits b) := by rw [hd]
  have h5 : parseDigits (natDigits a) = some a := pyInt_natRepr a
  have h6 : parseDigits (natDigits b) = some b := pyInt_natRepr b
  rw [h5, h6] at h4
  exact Option.some.inj h4

lemma addAdjCore_next (tree : Json) (base : String) (ci : Nat) (secs : List (String × Json))
    (hprev : ci = 0 ∨ ∃ fs, rGetNode tree (base ++ "/" ++ natRepr (ci - 1)) = .obj fs)
    (hnext : isType (rGetNode tree (base ++ "/" ++ natRepr (ci + 1))) "formula" = true) :
    lookupField (addAdjCore tree base ci secs) (base ++ "/" ++ natRepr (ci + 1))
      = some (rGetNode tree (base ++ "/" ++ natRepr (ci + 1))) := by
  obtain ⟨gs, hg, hgne⟩ := isType_obj hnext
  have hflag : (addAdjPrev tree base ci secs).2 = false := by
    unfold addAdjPrev
    rcases hprev with h0 | ⟨fs, hfs⟩
    · simp [h0]
    · by_cases hci : 0 < ci
      · rw [if_pos hci, hfs]
      · simp [hci]
  rw [hg] at hnext
  unfold addAdjCore addAdjNext
  rw [hflag, hg]
  simp only [Bool.false_eq_true, if_false]
  rw [show jTruthy (Json.obj gs) = true from by simp [jTruthy, List.isEmpty_iff, hgne]]
  rw [if_pos rfl, if_pos hnext]
  exact lookupField_dictInsert_self _ _ _

lemma addAdjCore_prev (tree : Json) (base : String) (ci : Nat) (secs : List (String × Json))
    (hci : 0 < ci)
    (hprev : isType (rGetNode tree (base ++ "/" ++ natRepr (ci - 1))) "formula" = true) :
    lookupField (addAdjCore tree base ci secs) (base ++ "/" ++ natRepr (ci - 1))
      = some (rGetNode tree (base ++ "/" ++ natRepr (ci - 1))) := by
  obtain ⟨fs, hf, hfne⟩ := isType_obj hprev
  have hne : (base ++ "/" ++ natRepr (ci + 1)) ≠ (base ++ "/" ++ natRepr (ci - 1)) := by
    intro he
    have h2 := appendNatRepr_inj base (ci + 1) (ci - 1) he
    omega
  have hstep : addAdjPrev tree base ci secs
      = (dictInsert secs (base ++ "/" ++ natRepr (ci - 1)) (.obj fs), false) := by
    rw [hf] at hprev
    unfold addAdjPrev
    rw [if_pos hci, hf]
    simp [hprev]
  rw [hf]
  unfold addAdjCore addAdjNext
  rw [hstep]
  simp only [Bool.false_eq_true, if_false]
  split
  · split
    · split
      · rw [lookupField_dictInsert_other _ _ _ _ hne]
        exact lookupField_dictInsert_self _ _ _
      · exact lookupField_dictInsert_self _ _ _
    · exact lookupField_dictInsert_self _ _ _
  · exact lookupField_dictInsert_self _ _ _

lemma addAdjPrev_fst_nodup (tree : Json) (base : String) (ci : Nat)
    (secs : List (String × Json)) (h : (secs.map Prod.fst).Nodup) :
    (((addAdjPrev tree base ci secs).1).map Prod.fst).Nodup := by
  unfold addAdjPrev
  split
  · split
    · split
      · exact dictInsert_fst_nodup _ _ _ h
      · exact h
    · exact h
  · exact h

lemma addAdjCore_fst_nodup (tree : Json) (base : String) (ci : Nat)
    (secs : List (String × Json)) (h : (secs.map Prod.fst).Nodup) :
    ((addAdjCore tree base ci secs).map Prod.fst).Nodup := by
  have h1 := addAdjPrev_fst_nodup tree base ci secs h
  unfold addAdjCore addAdjNext
  split
  · exact h1
  · split
    · split
      · split
        · exact dictInsert_fst_nodup _ _ _ h1
        · exact h1
      · exact h1
    · exact h1

lemma addAdjacentFormulas_fst_nodup (tree : Json) (path : String)
    (secs : List (String × Json)) (h : (secs.map Prod.fst).Nodup) :
    ((addAdjacentFormulas tree path secs).map Prod.fst).Nodup := by
  unfold addAdjacentFormulas addAdjFromParts
  split
  · exact h
  · split
    · split
      · exact h
      · exact addAdjCore_fst_nodup _ _ _ _ h
    · exact h

lemma buildRetrieved_fst_nodup (tree : Json) :
    ∀ (paths : List Json) (acc : List (String × Json)),
      (acc.map Prod.fst).Nodup → ((buildRetrieved tree paths acc).map Prod.fst).Nodup := by
  intro paths
  induction paths with
  | nil => intro acc h; exact h
  | cons p rest ih =>
    intro acc h
    cases p with
    | str path =>
      simp only [buildRetrieved]
      split
      · exact ih _ (addAdjacentFormulas_fst_nodup _ _ _ (dictInsert_fst_nodup _ _ _ h))
      · exact ih _ h
    | null => exact ih _ h
    | bool b => exact ih _ h
    | num n => exact ih _ h
    | arr xs => exact ih _ h
    | obj fs => exact ih _ h

lemma retrievedSectionsOf_fst_nodup (tree : Json) (paths : List Json) :
    ((retrievedSectionsOf tree paths).map Prod.fst).Nodup :=
  buildRetrieved_fst_nodup tree paths [] (by simp)

/-- Scenario E content: seven blocks, a formula at index 5, text elsewhere. -/
def c5Items : List Json := (List.range 7).map (fun i =>
  if i = 5 then .obj [("type", .str "formula"), ("content", .str "E=mc2")]
  else .obj [("type", .str "text"), ("content", .str ("t" ++ natRepr i))])

def c5Tree : Json := .obj [
  ("sections", .arr [.obj [("title", .str "Sec"), ("content", .arr c5Items)]]),
  ("key_map", .obj [("H4", .str "/sections/0/content/4")])]

def c5Env : REnv := ⟨true, true, c5Tree, .ok [⟨some "H4", 7/10⟩]⟩

/-- C5: for a content node at canonical path `/sections/<k>/content/<ci>`,
`_add_adjacent_formulas` pulls in a formula-typed dict at sibling index
`ci + 1` (whenever the `ci - 1` probe does not raise) and at `ci - 1` (for
`ci > 0`); retrieved-section keys are always pairwise distinct, so a formula
adjacent to two hits is kept once; and in Scenario E the formula at content
index 5 travels with the text hit at index 4 into the final result.  The
source runs the check for EVERY resolved content node, a superset of the
claimed text/figure/table nodes. -/
theorem C5_adjacent_formulas :
    (∀ (tree : Json) (k ci : Nat) (secs : List (String × Json)),
       (ci = 0 ∨ ∃ fs, rGetNode tree (contBase k ++ "/" ++ natRepr (ci - 1)) = Json.obj fs) →
       isType (rGetNode tree (contBase k ++ "/" ++ natRepr (ci + 1))) "formula" = true →
       lookupField (addAdjacentFormulas tree (contPath k ci) secs)
           (contBase k ++ "/" ++ natRepr (ci + 1))
         = some (rGetNode tree (contBase k ++ "/" ++ natRepr (ci + 1)))) ∧
    (∀ (tree : Json) (k ci : Nat) (secs : List (String × Json)), 0 < ci →
       isType (rGetNode tree (contBase k ++ "/" ++ natRepr (ci - 1))) "formula" = true →
       lookupField (addAdjacentFormulas tree (contPath k ci) secs)
           (contBase k ++ "/" ++ natRepr (ci - 1))
         = some (rGetNode tree (contBase k ++ "/" ++ natRepr (ci - 1)))) ∧
    (∀ (tree : Json) (paths : List Json),
       ((retrievedSectionsOf tree paths).map Prod.fst).Nodup) ∧
    (lookupField (retrievedSectionsOf c5Tree [.str "/sections/0/content/4"]) "/sections/0/content/5"
       = some (Json.obj [("type", .str "formula"), ("content", .str "E=mc2")]) ∧
     (retrievedSectionsOf c5Tree [.str "/sections/0/content/4"]).map Prod.fst
       = ["/sections/0/content/4", "/sections/0/content/5"] ∧
     (retrieveWithContext c5Env).1 =
       "以下是论文中与您问题最相关的内容:\n\n\n## Sec\n\nt4\n\n\n## Sec\n\nE=mc2") := by
  refine ⟨?_, ?_, retrievedSectionsOf_fst_nodup, rfl, by decide, by with_unfolding_all decide⟩
  · intro tree k ci secs hp hn
    rw [addAdjacentFormulas_contPath]
    exact addAdjCore_next tree (contBase k) ci secs hp hn
  · intro tree k ci secs hci hp
    rw [addAdjacentFormulas_contPath]
    exact addAdjCore_prev tree (contBase k) ci secs hci hp

/-- Witness for `C5_adjacent_formulas` at concrete inputs (next-sibling from
the hit at index 4, previous-sibling from a hit at index 6). -/
theorem C5_adjacent_formulas_witness :
    lookupField (addAdjacentFormulas c5Tree (contPath 0 4) []) (contBase 0 ++ "/" ++ natRepr 5)
      = some (rGetNode c5Tree (contBase 0 ++ "/" ++ natRepr 5)) ∧
    lookupField (addAdjacentFormulas c5Tree (contPath 0 6) []) (contBase 0 ++ "/" ++ natRepr 5)
      = some (rGetNode c5Tree (contBase 0 ++ "/" ++ natRepr 5)) :=
  ⟨C5_adjacent_formulas.1 c5Tree 0 4 []
     (Or.inr ⟨[("type", .str "text"), ("content", .str "t3")], rfl⟩) (by decide),
   C5_adjacent_formulas.2.1 c5Tree 0 6 [] (by decide) (by decide)⟩

/-- Scenario D: one hit at 0.62 — above the inclusion threshold, at or below
the scroll threshold. -/
def c6Env : REnv := ⟨true, true, rTree, .ok [⟨some "HA", 31/50⟩]⟩

/-- In a run that reaches rendering (ready, store, truthy dict tree,
successful search with survivors, resolvable first path, no exceptions), the
scroll locator is produced iff the first surviving hit scores above 0.65. -/
lemma scrollGating_aux (env : REnv) (docs : List RDoc) (paths : List Json) (p0 : String)
    (n0 : Json) (si : ScrollInfo) (s : String)
    (h1 : env.hasVectorPaths = true)
    (h2 : env.hasVectorStore = true)
    (h3 : jTruthy env.ragTree = true)
    (hobj : ∃ fs, env.ragTree = Json.obj fs)
    (h4 : env.searchResult = .ok docs)
    (h5 : survivingDocs docs ≠ [])
    (h6 : collectSectionPaths (survivingDocs docs) (jgetD env.ragTree "key_map" (.obj []))
            = .ok paths)
    (h7 : paths ≠ [])
    (h8 : paths.headD .null = .str p0)
    (h9 : lookupField (retrievedSectionsOf env.ragTree paths) p0 = some n0)
    (h10 : jTruthy n0 = true)
    (h11 : createScrollInfo p0 n0 = .ok si)
    (h12 : renderAll env.ragTree (retrievedSectionsOf env.ragTree paths) = .ok s) :
    ((retrieveWithContext env).2 ≠ none ↔
      ((survivingDocs docs).headD ⟨none, 0⟩).score > 13/20) := by
  obtain ⟨fs, hfs⟩ := hobj
  rcases env with ⟨hvp, hvs, tree, sr⟩
  simp only at h1 h2 h3 h4 h6 h9 h12 hfs
  subst h1 h2 h4 hfs
  by_cases hsc : ((survivingDocs docs).headD ⟨none, 0⟩).score > 13/20
  · simp only [List.headD_eq_head?_getD] at hsc h8
    have hcore : retrieveCore ⟨true, true, Json.obj fs, .ok docs⟩ = .ok (s, some si) := by
      simp [retrieveCore, h3, List.isEmpty_iff, h5, h6, h7, h8, h9, h10, h11, h12, hsc,
        scrollInfoOf, Except.map, bind, Except.bind, pure, Except.pure]
    have hw : retrieveWithContext ⟨true, true, Json.obj fs, .ok docs⟩ = (s, some si) := by
      simp [retrieveWithContext, hcore]
    rw [hw]
    simp [hsc]
  · simp only [List.headD_eq_head?_getD] at hsc
    have hcore : retrieveCore ⟨true, true, Json.obj fs, .ok docs⟩ = .ok (s, none) := by
      simp [retrieveCore, h3, List.isEmpty_iff, h5, h6, h7, h12, hsc,
        scrollInfoOf, Except.map, bind, Except.bind, pure, Except.pure]
    have hw : retrieveWithContext ⟨true, true, Json.obj fs, .ok docs⟩ = (s, none) := by
      simp [retrieveWithContext, hcore]
    rw [hw]
    simp [hsc]

/-- C6: in every run that reaches rendering, a scroll locator is produced iff
the first surviving hit — the highest-scoring one, as similarity search
returns hits best-first — scores above 0.65; and in Scenario D a 0.62 top hit
yields a non-empty result with no scroll locator. -/
theorem C6_scroll_gating :
    (∀ (env : REnv) (docs : List RDoc) (paths : List Json) (p0 : String)
        (n0 : Json) (si : ScrollInfo) (s : String),
        env.hasVectorPaths = true →
        env.hasVectorStore = true →
        jTruthy env.ragTree = true →
        (∃ fs, env.ragTree = Json.obj fs) →
        env.searchResult = .ok docs →
        survivingDocs docs ≠ [] →
        collectSectionPaths (survivingDocs docs) (jgetD env.ragTree "key_map" (.obj []))
          = .ok paths →
        paths ≠ [] →
        paths.headD .null = .str p0 →
        lookupField (retrievedSectionsOf env.ragTree paths) p0 = some n0 →
        jTruthy n0 = true →
        createScrollInfo p0 n0 = .ok si →
        renderAll env.ragTree (retrievedSectionsOf env.ragTree paths) = .ok s →
        ((retrieveWithContext env).2 ≠ none ↔
          ((survivingDocs docs).headD ⟨none, 0⟩).score > 13/20)) ∧
    ((retrieveWithContext c6Env).1 ≠ "" ∧ (retrieveWithContext c6Env).2 = none) :=
  ⟨fun env docs paths p0 n0 si s h1 h2 h3 hobj h4 h5 h6 h7 h8 h9 h10 h11 h12 =>
     scrollGating_aux env docs paths p0 n0 si s h1 h2 h3 hobj h4 h5 h6 h7 h8 h9 h10 h11 h12,
   ⟨by with_unfolding_all decide, by with_unfolding_all rfl⟩⟩

/-- Witness for `C6_scroll_gating` at Scenario C's environment (top score
0.7): the equivalence holds with both sides true. -/
theorem C6_scroll_gating_witness :
    (retrieveWithContext c4Env).2 ≠ none ↔
      ((survivingDocs [⟨some "HA", 7/10⟩, ⟨some "HB", 11/20⟩]).headD ⟨none, 0⟩).score > 13/20 :=
  C6_scroll_gating.1 c4Env [⟨some "HA", 7/10⟩, ⟨some "HB", 11/20⟩]
    [.str "/sections/0/content/0"] "/sections/0/content/0" rItemA
    ⟨false, .str "", .str "AText", .str "text"⟩
    "以下是论文中与您问题最相关的内容:\n\n\n## SecA\n\nAText"
    rfl rfl (by decide) ⟨_, rfl⟩ rfl (by with_unfolding_all decide)
    (by with_unfolding_all rfl) (List.cons_ne_nil _ _) rfl rfl (by decide) rfl rfl
